import Mathlib

/-!
Verification of `src/lkvm/nfs.py` (lkvm NFS overlay filesystem adapter).

The development shallowly embeds the Python module:
pure functions become Lean functions; the stateful `OverlayFS` adapter
becomes explicit state passing in a small monad that also records the host
system calls an operation performs; machine integers are `Nat` with explicit
range conditions; fallible code returns `Except`.
-/

namespace LkvmNfs

/-- Python byte strings are modelled as lists of naturals (each byte < 256
where it matters; conditions are explicit in theorem statements). -/
abbrev Bytes := List Nat

/-- Helper turning a string literal into the byte list of its characters,
for writing concrete paths and names. -/
def bs (s : String) : Bytes := s.data.map Char.toNat

/-- Protocol-level NFS status kinds used by the module (shenaniganfs
`NFSError` values that appear in `ERRNO_MAPPING` and in explicit raises).
The source names `ERR_IO` and `ERR_NXIO` are rendered `ERR_IOErr` and
`ERR_NXIODev` here. -/
inductive NFSErr where
  | ERR_ACCES
  | ERR_DQUOT
  | ERR_EXIST
  | ERR_FBIG
  | ERR_IOErr
  | ERR_ISDIR
  | ERR_NAMETOOLONG
  | ERR_NODEV
  | ERR_NOENT
  | ERR_NOSPC
  | ERR_NOTDIR
  | ERR_NOTEMPTY
  | ERR_NXIODev
  | ERR_PERM
  | ERR_ROFS
  | ERR_STALE
deriving DecidableEq

/-- Python exceptions that the embedded code can raise.  `fsexc` is
shenaniganfs `FSException(status, message)`; `osError` carries the errno of
an `OSError` signalled by a host call; `structError` is `struct.error`;
the remaining constructors are the builtin exception classes of the same
name.  Messages interpolating runtime values (f-strings) are kept as their
static skeleton text. -/
inductive PyErr where
  | fsexc (err : NFSErr) (msg : Option String)
  | osError (errnum : Nat)
  | structError
  | runtimeError
  | valueError
  | keyError
  | attrError
  | unboundLocalError
deriving DecidableEq

/-- Linux errno values referenced by `ERRNO_MAPPING`. -/
def EACCES : Nat := 13
def EDQUOT : Nat := 122
def EEXIST : Nat := 17
def EFBIG : Nat := 27
def EIO : Nat := 5
def EISDIR : Nat := 21
def ENAMETOOLONG : Nat := 36
def ENODEV : Nat := 19
def ENOENT : Nat := 2
def ENOSPC : Nat := 28
def ENOTDIR : Nat := 20
def ENOTEMPTY : Nat := 39
def ENXIO : Nat := 6
def EPERM : Nat := 1
def EROFS : Nat := 30
def ESTALE : Nat := 116

/-- `ERRNO_MAPPING.get(errnum, NFSError.ERR_IO)` wrapped by
`nfserror_from_errno`: the fixed errno translation table with generic
I/O fallback. -/
def nfserror_from_errno (e : Nat) : NFSErr :=
  if e = EACCES then .ERR_ACCES
  else if e = EDQUOT then .ERR_DQUOT
  else if e = EEXIST then .ERR_EXIST
  else if e = EFBIG then .ERR_FBIG
  else if e = EIO then .ERR_IOErr
  else if e = EISDIR then .ERR_ISDIR
  else if e = ENAMETOOLONG then .ERR_NAMETOOLONG
  else if e = ENODEV then .ERR_NODEV
  else if e = ENOENT then .ERR_NOENT
  else if e = ENOSPC then .ERR_NOSPC
  else if e = ENOTDIR then .ERR_NOTDIR
  else if e = ENOTEMPTY then .ERR_NOTEMPTY
  else if e = ENXIO then .ERR_NXIODev
  else if e = EPERM then .ERR_PERM
  else if e = EROFS then .ERR_ROFS
  else if e = ESTALE then .ERR_STALE
  else .ERR_IOErr

/-! ## File handle codec (`OverlayFileHandleEncoder`) -/

/-- Big-endian fixed-width serialization of one unsigned integer, the
per-field effect of `struct.pack("!QQ", ...)`: `pack_u64 k n` is the `k`
big-endian base-256 digits of `n`. -/
def pack_u64 : Nat → Nat → Bytes
  | 0, _ => []
  | k + 1, n => pack_u64 k (n / 256) ++ [n % 256]

/-- Big-endian deserialization of one unsigned integer, the per-field
effect of `struct.unpack("!QQ", ...)`. -/
def unpack_u64 (l : Bytes) : Nat := l.foldl (fun a b => a * 256 + b) 0

/-- `OverlayFileHandleEncoder`: holds the HMAC secret.  The keyed
cryptographic digest `hmac.new(self.hmac_secret, data, 'sha256').digest()`
is abstracted as the function `hmac_digest` (the secret key is baked into
it); theorems assume only that its output is 32 bytes long, which is a
defining property of HMAC-SHA256. -/
structure OverlayFileHandleEncoder where
  hmac_digest : Bytes → Bytes

namespace OverlayFileHandleEncoder

/-- `_mac_len`: 16 bytes for the compact (NFSv2) variant, 32 otherwise. -/
def mac_len (nfs_v2 : Bool) : Nat := if nfs_v2 then 16 else 32

/-- `_calc_mac`: the keyed digest over `data`, truncated to `_mac_len`. -/
def calc_mac (enc : OverlayFileHandleEncoder) (data : Bytes) (nfs_v2 : Bool) : Bytes :=
  (enc.hmac_digest data).take (mac_len nfs_v2)

/-- `encode`: serialize `(fileid, fsid)` as two big-endian 64-bit integers
and prepend the truncated keyed digest over that payload.  `struct.pack`
raises `struct.error` when a value does not fit in 64 bits. -/
def encode (enc : OverlayFileHandleEncoder) (fileid fsid : Nat) (nfs_v2 : Bool) :
    Except PyErr Bytes :=
  if fileid < 2 ^ 64 ∧ fsid < 2 ^ 64 then
    let payload := pack_u64 8 fileid ++ pack_u64 8 fsid
    .ok (calc_mac enc payload nfs_v2 ++ payload)
  else .error .structError

/-- `decode`: check the total length, recompute the digest over the
trailing payload and compare (`secrets.compare_digest` is equality; its
constant-time execution has no observable semantics here), then
deserialize the two integers. -/
def decode (enc : OverlayFileHandleEncoder) (fh : Bytes) (nfs_v2 : Bool) :
    Except PyErr (Nat × Nat) :=
  let ml := mac_len nfs_v2
  let expected_len := 16 + ml
  if fh.length ≠ expected_len then
    .error (.fsexc .ERR_IOErr (some "FH is not expected_len bytes"))
  else
    let mac := fh.take ml
    let payload := fh.drop ml
    if mac ≠ calc_mac enc payload nfs_v2 then
      .error (.fsexc .ERR_IOErr (some "FH failed sig check"))
    else
      .ok (unpack_u64 (payload.take 8), unpack_u64 (payload.drop 8))

end OverlayFileHandleEncoder

/-- A concrete encoder instance used for evaluating the codec theorems on
explicit inputs: a stand-in keyed digest that always produces 32 bytes and
depends on its input. -/
def encX : OverlayFileHandleEncoder :=
  ⟨fun d => (List.range 32).map (fun i => (d.foldl (fun a b => a + b) 0 + i) % 256)⟩

/-! ## OverlayFS model

The adapter state (entry table, inode allocator, entry objects) is modelled
explicitly; entry objects live in a `heap` keyed by references so that
Python object identity and in-place mutation are observable.  Host system
calls are abstracted by a `Host` oracle giving each call's result, and every
operation records the host calls it performs in a trace. -/

/-- shenaniganfs `FileType` values used by the module. -/
inductive FileType where
  | DIR
  | CHR
  | BLK
  | REG
  | FIFO
  | LNK
  | SOCK
deriving DecidableEq

/-- The fields of `os.stat_result` that the module reads.  Timestamps are
kept as plain numbers (`datetime.fromtimestamp` is an injective rendering
with no further observable behaviour here). -/
structure StatInfo where
  st_dev : Nat
  st_ino : Nat
  st_mode : Nat
  st_size : Nat
  st_blocks : Nat
  st_uid : Nat
  st_gid : Nat
  st_rdev : Nat
  st_atime : Nat
  st_mtime : Nat
  st_ctime : Nat
deriving DecidableEq

def S_IFDIR : Nat := 16384
def S_IFCHR : Nat := 8192
def S_IFBLK : Nat := 24576
def S_IFREG : Nat := 32768
def S_IFIFO : Nat := 4096
def S_IFLNK : Nat := 40960
def S_IFSOCK : Nat := 49152

/-- `stat.S_IFMT`: mask the file-type bits (0o170000). -/
def stat_S_IFMT (mode : Nat) : Nat := Nat.land mode 61440

/-- The `types` dictionary of `create_fsentry` applied to
`stat.S_IFMT(mode)`, with `.get(..., FileType.REG)` as the default. -/
def filetype_of_mode (mode : Nat) : FileType :=
  let m := stat_S_IFMT mode
  if m = S_IFDIR then .DIR
  else if m = S_IFCHR then .CHR
  else if m = S_IFBLK then .BLK
  else if m = S_IFREG then .REG
  else if m = S_IFIFO then .FIFO
  else if m = S_IFLNK then .LNK
  else if m = S_IFSOCK then .SOCK
  else .REG

/-- `os.major` (glibc `gnu_dev_major`). -/
def os_major (d : Nat) : Nat :=
  Nat.lor (Nat.land (d >>> 8) 4095) (Nat.land (d >>> 32) 4294963200)

/-- `os.minor` (glibc `gnu_dev_minor`). -/
def os_minor (d : Nat) : Nat :=
  Nat.lor (Nat.land d 255) (Nat.land (d >>> 12) 4294967040)

/-- A value held in a directory's `fs_childs` dictionary: either a concrete
`FSEntry` object (a heap reference) or an `FSEntryLink` — the "fake
hardlink" wrapper whose `__getattr__` delegates every attribute except the
overridden `name` to its `base` object (which is an `Optional` entry and can
be `None` for the `..` of an orphaned directory). -/
inductive Slot where
  | obj (r : Nat)
  | link (base : Option Nat) (name : Bytes)
deriving DecidableEq

/-- `FSEntry` (plus the `BaseFSEntry` attributes the module sets).  The
weak back-reference `fs` to the owning filesystem is modelled by the
instance identifier `fs_owner` (the model tracks a single instance whose
identifier is `fs_id` in the state). -/
structure FSEntry where
  fs_source : Bytes
  fs_stat : StatInfo
  mode : Nat
  size : Nat
  blocks : Nat
  uid : Nat
  gid : Nat
  rdev : Nat × Nat
  atime : Nat
  mtime : Nat
  ctime : Nat
  type : FileType
  name : Bytes
  parent_id : Option Nat
  fileid : Nat
  fs_links : Int
  nlink : Nat
  fs_childs : List (Bytes × Slot)
  fs_owner : Nat
deriving DecidableEq

/-- A blank `FSEntry()` before `fill_fsentry` and the kwargs assignment. -/
def FSEntry.blank : FSEntry :=
  { fs_source := [], fs_stat := ⟨0, 0, 0, 0, 0, 0, 0, 0, 0, 0, 0⟩, mode := 0
    size := 0, blocks := 0, uid := 0, gid := 0, rdev := (0, 0), atime := 0
    mtime := 0, ctime := 0, type := .REG, name := [], parent_id := none
    fileid := 0, fs_links := 0, nlink := 0, fs_childs := [], fs_owner := 0 }

/-- Association-list lookup: Python `dict` access by key. -/
def alist_lookup {α β : Type} [DecidableEq α] : List (α × β) → α → Option β
  | [], _ => none
  | (k, v) :: rest, key => if k = key then some v else alist_lookup rest key

/-- Association-list insert-or-update: Python `d[k] = v` (existing keys
keep their position, new keys are appended — insertion order). -/
def alist_insert {α β : Type} [DecidableEq α] : List (α × β) → α → β → List (α × β)
  | [], key, val => [(key, val)]
  | (k, v) :: rest, key, val =>
      if k = key then (k, val) :: rest else (k, v) :: alist_insert rest key val

/-- Association-list delete: Python `del d[k]`, `none` when the key is
absent (`KeyError`). -/
def alist_erase {α β : Type} [DecidableEq α] : List (α × β) → α → Option (List (α × β))
  | [], _ => none
  | (k, v) :: rest, key =>
      if k = key then some rest else (alist_erase rest key).map (fun l => (k, v) :: l)

/-- Update the entry object stored under a heap reference in place. -/
def alist_update {α β : Type} [DecidableEq α] (l : List (α × β)) (key : α) (f : β → β) :
    List (α × β) :=
  l.map (fun p => if p.1 = key then (p.1, f p.2) else p)

/-- `FSinodes`: the host `(device, inode)` to logical-id allocator. -/
structure FSinodes where
  inodes : List ((Nat × Nat) × Nat)
  last_inode : Nat
deriving DecidableEq

/-- `FSinodes.get`: return the existing id for the pair or allocate
`last_inode + 1` and record it. -/
def FSinodes.get (fsi : FSinodes) (dev ino : Nat) : Nat × FSinodes :=
  match alist_lookup fsi.inodes (dev, ino) with
  | some v => (v, fsi)
  | none =>
    let nid := fsi.last_inode + 1
    (nid, ⟨alist_insert fsi.inodes (dev, ino) nid, nid⟩)

/-- `FSinodes.put`: `del self.inodes[(dev, ino)]`, `none` on `KeyError`. -/
def FSinodes.put (fsi : FSinodes) (dev ino : Nat) : Option FSinodes :=
  (alist_erase fsi.inodes (dev, ino)).map (fun l => ⟨l, fsi.last_inode⟩)

/-- The `OverlayFS` instance state.  `heap`/`next_ref` model Python object
identity for `FSEntry` objects; `fs_id` identifies this instance for the
ownership check. -/
structure OverlayFS where
  num_blocks : Nat
  free_blocks : Nat
  avail_blocks : Nat
  read_only : Bool
  size_quota : Option Nat
  entries_quota : Option Nat
  mountpoints : List (Bytes × Bytes)
  entries : List (Nat × Nat)
  inodes : FSinodes
  root_dir : Option Nat
  fs_id : Nat
  heap : List (Nat × FSEntry)
  next_ref : Nat
deriving DecidableEq

def OverlayFS.getObj (s : OverlayFS) (r : Nat) : Option FSEntry :=
  alist_lookup s.heap r

/-- Host system calls recorded in an operation's trace. -/
inductive HostCall where
  | lstat (path : Bytes)
  | listdir (path : Bytes)
  | openf (path : Bytes) (flags : Nat)
  | openat (dirfd : Nat) (path : Bytes) (flags : Nat)
  | mkdirat (dirfd : Nat) (name : Bytes) (mode : Nat)
  | renameat (src : Bytes) (dirfd : Nat) (dst : Bytes)
  | symlinkat (val : Bytes) (dirfd : Nat) (name : Bytes)
  | removef (path : Bytes)
  | rmdirf (path : Bytes)
  | pwrite (fd : Nat) (data : Bytes) (off : Nat)
  | fstat (fd : Nat)
  | fchown (fd : Nat) (uid gid : Int)
  | fchmod (fd : Nat) (mode : Nat)
  | utimef (fd : Nat) (atime mtime : Nat)
  | closef (fd : Nat)
deriving DecidableEq

/-- The host oracle: the outcome of each host call the adapter can issue
(`Except` errno on `OSError`).  `now` is `int(time.time())`. -/
structure Host where
  lstat : Bytes → Except Nat StatInfo
  listdir : Bytes → Except Nat (List Bytes)
  openf : Bytes → Nat → Except Nat Nat
  openat : Nat → Bytes → Nat → Except Nat Nat
  mkdirat : Nat → Bytes → Nat → Except Nat Unit
  renameat : Bytes → Nat → Bytes → Except Nat Unit
  symlinkat : Bytes → Nat → Bytes → Except Nat Unit
  removef : Bytes → Except Nat Unit
  rmdirf : Bytes → Except Nat Unit
  pwrite : Nat → Bytes → Nat → Except Nat Nat
  fstat : Nat → Except Nat StatInfo
  fchown : Nat → Int → Int → Except Nat Unit
  fchmod : Nat → Nat → Except Nat Unit
  utimef : Nat → Nat → Nat → Except Nat Unit
  now : Nat

/-- The adapter-operation monad: state transformer over `OverlayFS` with
Python-exception results and a trace of host calls. -/
def M (α : Type) : Type := OverlayFS → Except PyErr α × OverlayFS × List HostCall

instance : Monad M where
  pure a := fun s => (.ok a, s, [])
  bind x f := fun s =>
    match x s with
    | (.ok a, s1, t1) =>
      match f a s1 with
      | (r, s2, t2) => (r, s2, t1 ++ t2)
    | (.error e, s1, t1) => (.error e, s1, t1)

def throwM {α : Type} (e : PyErr) : M α := fun s => (.error e, s, [])

def getS : M OverlayFS := fun s => (.ok s, s, [])

def setS (s' : OverlayFS) : M Unit := fun _ => (.ok (), s', [])

def modifyS (f : OverlayFS → OverlayFS) : M Unit := fun s => (.ok (), f s, [])

/-- Issue one host call: record it in the trace and lift an errno failure
to `OSError`. -/
def hostOp {α : Type} (c : HostCall) (r : Except Nat α) : M α :=
  fun s =>
    (match r with
     | .ok a => .ok a
     | .error n => .error (.osError n), s, [c])

/-- Transform the error of a computation (used for `except` clauses that
re-raise a different exception). -/
def mapErrM {α : Type} (f : PyErr → PyErr) (x : M α) : M α := fun s =>
  match x s with
  | (.ok a, s1, t1) => (.ok a, s1, t1)
  | (.error e, s1, t1) => (.error (f e), s1, t1)

/-- `except OSError as exc: raise FSException(nfserror_from_errno(exc.errno),
exc.strerror)` followed by `except Exception: raise FSException(ERR_IO)`:
every Python exception is an `Exception` here, so both handlers together
map any error to an `FSException` (`strerror` messages are not modelled). -/
def py_to_fsexc (e : PyErr) : PyErr :=
  match e with
  | .osError n => .fsexc (nfserror_from_errno n) none
  | _ => .fsexc .ERR_IOErr none

/-- An `except OSError` handler alone (used by `fill_fs_childs`): other
exceptions propagate unchanged. -/
def os_to_fsexc (e : PyErr) : PyErr :=
  match e with
  | .osError n => .fsexc (nfserror_from_errno n) none
  | e' => e'

def readObj (r : Nat) : M FSEntry := fun s =>
  match s.getObj r with
  | some o => (.ok o, s, [])
  | none => (.error .attrError, s, [])

def writeObj (r : Nat) (f : FSEntry → FSEntry) : M Unit :=
  modifyS (fun s => { s with heap := alist_update s.heap r f })

/-- Allocate a fresh `FSEntry` object and return its reference. -/
def allocObj (o : FSEntry) : M Nat := fun s =>
  (.ok s.next_ref,
   { s with heap := s.heap ++ [(s.next_ref, o)], next_ref := s.next_ref + 1 }, [])

/-- Attribute read through a child slot: a concrete entry reads its own
object; an `FSEntryLink` reads its base with the `name` replacement applied
(`__getattr__`); a link whose base is `None` fails like `getattr(None, _)`
for every attribute other than the overridden `name`. -/
def slotView (sl : Slot) : M FSEntry :=
  match sl with
  | .obj r => readObj r
  | .link none _ => throwM .attrError
  | .link (some r) nm => do
      let o ← readObj r
      pure { o with name := nm }

/-- Reading only `.name` through a slot: on a link the replacement is
returned without touching the base. -/
def slotName : Slot → M Bytes
  | .obj r => do
      let o ← readObj r
      pure o.name
  | .link _ nm => pure nm

/-- Pure variant of `slotView` for stating properties. -/
def OverlayFS.slotViewP (s : OverlayFS) : Slot → Option FSEntry
  | .obj r => s.getObj r
  | .link none _ => none
  | .link (some r) nm => (s.getObj r).map (fun o => { o with name := nm })

/-- Python truthiness of the `parent_id` field (`if entry.parent_id:`):
`None` and `0` are falsy. -/
def truthyId : Option Nat → Bool
  | none => false
  | some n => decide (n ≠ 0)

/-! ### `os.path` helpers (POSIX, byte paths) -/

/-- `os.path.join(a, b)` for a single extra component. -/
def os_path_join (a b : Bytes) : Bytes :=
  if b.head? = some 47 then b
  else if a = [] ∨ a.getLast? = some 47 then a ++ b
  else a ++ [47] ++ b

/-- `os.path.basename`: everything after the last slash. -/
def os_path_basename (p : Bytes) : Bytes :=
  (p.reverse.takeWhile (fun c => decide (c ≠ 47))).reverse

/-- Component normalization of `posixpath.normpath` on an absolute path:
drop empty and `.` components and resolve `..` against the stack (never
above the root). -/
def norm_parts : List Bytes → List Bytes → List Bytes
  | acc, [] => acc.reverse
  | acc, c :: rest =>
    if c = [] ∨ c = bs "." then norm_parts acc rest
    else if c = bs ".." then
      match acc with
      | [] => norm_parts [] rest
      | _ :: acc' => norm_parts acc' rest
    else norm_parts (c :: acc) rest

/-- `os.path.abspath` for the absolute paths this module passes it
(`normpath` of the input; the POSIX leading-double-slash special case and
the cwd join for relative paths are outside the modelled inputs and left
as the identity-shaped fallback). -/
def os_path_abspath (p : Bytes) : Bytes :=
  if p.head? = some 47 then
    47 :: List.intercalate [47] (norm_parts [] (p.splitOn 47))
  else p

/-! ### Attribute dictionaries and fd helpers -/

/-- The `attrs` dictionary handed to create/set-attribute operations
(`uid`, `gid`, `mode`, `atime`, `mtime` keys, each possibly absent). -/
structure Attrs where
  uid : Option Int
  gid : Option Int
  mode : Option Nat
  atime : Option Nat
  mtime : Option Nat
deriving DecidableEq

/-- Python `attrs.get("atime") or now`: `None` and `0` both fall back. -/
def or_now (v : Option Nat) (now : Nat) : Nat :=
  match v with
  | some n => if n = 0 then now else n
  | none => now

/-- `set_fd_attrs`. -/
def set_fd_attrs (h : Host) (fd : Nat) (attrs : Attrs) : M Unit := do
  if attrs.uid.isSome || attrs.gid.isSome then
    hostOp (.fchown fd (attrs.uid.getD (-1)) (attrs.gid.getD (-1)))
      (h.fchown fd (attrs.uid.getD (-1)) (attrs.gid.getD (-1)))
  match attrs.mode with
  | some m => hostOp (.fchmod fd m) (h.fchmod fd m)
  | none => pure ()
  if attrs.atime.isSome || attrs.mtime.isSome then
    hostOp (.utimef fd (or_now attrs.atime h.now) (or_now attrs.mtime h.now))
      (h.utimef fd (or_now attrs.atime h.now) (or_now attrs.mtime h.now))

/-- `fill_fsentry`: copy the stat fields onto the entry. -/
def fill_fsentry (o : FSEntry) (st : StatInfo) : FSEntry :=
  { o with
    fs_stat := st
    mode := st.st_mode
    size := st.st_size
    blocks := st.st_blocks
    uid := st.st_uid
    gid := st.st_gid
    rdev := if st.st_rdev ≠ 0 then (os_major st.st_rdev, os_minor st.st_rdev) else (0, 0)
    atime := st.st_atime
    mtime := st.st_mtime
    ctime := st.st_ctime }

def O_RDONLY : Nat := 0
def O_WRONLY : Nat := 1
def O_CREAT : Nat := 64
def O_EXCL : Nat := 128
def O_NOCTTY : Nat := 256
def O_DIRECTORY : Nat := 65536
def O_NOFOLLOW : Nat := 131072

/-- `O_DIRECTORY|O_NOFOLLOW|O_NOCTTY`. -/
def DIR_OPEN_FLAGS : Nat := O_DIRECTORY ||| O_NOFOLLOW ||| O_NOCTTY

/-- `O_WRONLY|O_CREAT|O_EXCL|O_NOFOLLOW|O_NOCTTY`. -/
def CREATE_FLAGS : Nat := O_WRONLY ||| O_CREAT ||| O_EXCL ||| O_NOFOLLOW ||| O_NOCTTY

/-- `O_WRONLY|O_NOFOLLOW|O_NOCTTY`. -/
def WR_FLAGS : Nat := O_WRONLY ||| O_NOFOLLOW ||| O_NOCTTY

/-- A `try`/`except OSError`/`except Exception`/`finally` block that opens
one fd inside the `try` (with the fd local pre-initialized to `-1`): on any
failure both handlers collapse to `py_to_fsexc` and `close_no_exc` in the
`finally` closes the fd when one was opened. -/
def one_fd_io {α : Type} (opener : M Nat) (body : Nat → M α) : M α := fun s =>
  match opener s with
  | (.error e, s1, t1) => (.error (py_to_fsexc e), s1, t1)
  | (.ok fd, s1, t1) =>
    match body fd s1 with
    | (.ok a, s2, t2) => (.ok a, s2, t1 ++ t2 ++ [.closef fd])
    | (.error e, s2, t2) => (.error (py_to_fsexc e), s2, t1 ++ t2 ++ [.closef fd])

/-- The two-fd `try`/`except`/`finally` shape of `mkdir` and `symlink`:
`fd1 = -1` is assigned before the first open, but `fd2 = -1` only after the
middle call, so when the first open or the middle call raises, the handler
raises an `FSException` and then the `finally` block's `close_no_exc(fd2)`
reads an unbound local — the resulting `UnboundLocalError` supersedes the
`FSException` (after `close_no_exc(fd1)` already ran). -/
def two_fd_io (open1 : M Nat) (mid : Nat → M Unit) (open2 : Nat → M Nat)
    (body : Nat → M Unit) : M Unit := fun s =>
  match open1 s with
  | (.error _, s1, t1) => (.error .unboundLocalError, s1, t1)
  | (.ok fd1, s1, t1) =>
    match mid fd1 s1 with
    | (.error _, s2, t2) => (.error .unboundLocalError, s2, t1 ++ t2 ++ [.closef fd1])
    | (.ok _, s2, t2) =>
      match open2 fd1 s2 with
      | (.error e, s3, t3) =>
          (.error (py_to_fsexc e), s3, t1 ++ t2 ++ t3 ++ [.closef fd1])
      | (.ok fd2, s3, t3) =>
        match body fd2 s3 with
        | (.ok _, s4, t4) =>
            (.ok (), s4, t1 ++ t2 ++ t3 ++ t4 ++ [.closef fd1, .closef fd2])
        | (.error e, s4, t4) =>
            (.error (py_to_fsexc e), s4, t1 ++ t2 ++ t3 ++ t4 ++ [.closef fd1, .closef fd2])

/-! ### OverlayFS operations -/

/-- Modelled from the spec: `BaseFS._verify_owned` (external shenaniganfs
dependency, not part of this repository's sources) checks that the entry
belongs to this filesystem instance before any host I/O and fails with a
generic I/O error when violated. -/
def _verify_owned (r : Nat) : M Unit := do
  let o ← readObj r
  let s ← getS
  if o.fs_owner ≠ s.fs_id then
    throwM (.fsexc .ERR_IOErr (some "entry does not belong to this filesystem"))
  else pure ()

/-- Modelled from the spec: `BaseFS._verify_writable` (external
shenaniganfs dependency, not part of this repository's sources) fails with
ReadOnlyFilesystem (`ERR_ROFS`) when the filesystem is read-only, before
any host I/O. -/
def _verify_writable : M Unit := do
  let s ← getS
  if s.read_only then throwM (.fsexc .ERR_ROFS none) else pure ()

/-- `OverlayFS.create_fsentry`, returning the reference of the freshly
allocated entry object. -/
def create_fsentry (h : Host) (path0 : Bytes) (parent : Option Nat) : M Nat := do
  let path := os_path_abspath path0
  let s ← getS
  let fs_path ←
    match s.root_dir with
    | some rref => do
        let ro ← readObj rref
        match alist_lookup s.mountpoints (path.drop ro.fs_source.length) with
        | some ov => pure (if ov ≠ [] then ov else path)
        | none => pure path
    | none => pure path
  let parent_id ←
    match parent with
    | some pr => do
        let po ← readObj pr
        pure (some po.fileid)
    | none => pure (none : Option Nat)
  let st ← hostOp (.lstat fs_path) (h.lstat fs_path)
  let s1 ← getS
  let idalloc := s1.inodes.get st.st_dev st.st_ino
  setS { s1 with inodes := idalloc.2 }
  allocObj { fill_fsentry FSEntry.blank st with
    fs_source := fs_path
    fs_links := 0
    fs_childs := []
    fs_owner := s.fs_id
    type := filetype_of_mode st.st_mode
    name := os_path_basename path
    parent_id := parent_id
    fileid := idalloc.1
    nlink := 2 }

/-- `OverlayFS.track_entry`. -/
def track_entry (r : Nat) : M Unit := do
  let o ← readObj r
  let s ← getS
  if (alist_lookup s.entries o.fileid).isNone then
    setS { s with entries := s.entries ++ [(o.fileid, r)] }
  writeObj r (fun o2 => { o2 with fs_links := o2.fs_links + 1 })

/-- `OverlayFS.remove_entry`.  For a concrete entry the reference-count
decrement `entry.fs_links -= 1` mutates the entry object; when the argument
is an `FSEntryLink`, Python reads the base's count through `__getattr__`
but the assignment binds the decremented value on the link object itself
(links delegate reads, not writes), so the base object's count is unchanged
and only the shadow value feeds the following `> 0` test; the model
reproduces exactly that. -/
def remove_entry (sl : Slot) : M Unit := do
  let view ← slotView sl
  let s ← getS
  let tracked := (alist_lookup s.entries view.fileid).isSome
  let links' := if tracked then view.fs_links - 1 else view.fs_links
  (match sl, tracked with
   | .obj r, true => writeObj r (fun o => { o with fs_links := o.fs_links - 1 })
   | _, _ => pure ())
  if links' > 0 then pure ()
  else do
    let s1 ← getS
    match s1.inodes.put view.fs_stat.st_dev view.fs_stat.st_ino with
    | none => throwM .keyError
    | some ino' => do
        setS { s1 with inodes := ino' }
        let s2 ← getS
        match alist_erase s2.entries view.fileid with
        | none => throwM .keyError
        | some es => setS { s2 with entries := es }

/-- `OverlayFS.get_entry_by_id` (as a heap reference). -/
def get_entry_by_id (fileid : Nat) : M (Option Nat) := do
  let s ← getS
  pure (alist_lookup s.entries fileid)

/-- The `for name in os.listdir(...)` loop of `fill_fs_childs`, building
the local `fs_childs` dictionary `acc`. -/
def fill_loop (h : Host) (dref : Nat) : List Bytes → List (Bytes × Slot) →
    M (List (Bytes × Slot))
  | [], acc => pure acc
  | name :: rest, acc => do
      let dir ← readObj dref
      let cur ←
        match alist_lookup dir.fs_childs name with
        | some sl => pure sl
        | none => do
            let path := os_path_join dir.fs_source name
            let cref ← create_fsentry h path (some dref)
            track_entry cref
            pure (Slot.obj cref)
      let nm ← slotName cur
      fill_loop h dref rest (alist_insert acc nm cur)

/-- The eviction pass of `fill_fs_childs`: entries of the old dictionary
whose key is not in the rebuilt one are `remove_entry`d. -/
def evict_loop : List (Bytes × Slot) → List (Bytes × Slot) → M Unit
  | [], _ => pure ()
  | (k, sl) :: rest, acc => do
      if (alist_lookup acc k).isNone then remove_entry sl
      evict_loop rest acc

/-- `OverlayFS.fill_fs_childs`.  `directory.fs()` is the weak reference to
the owning filesystem, i.e. this instance. -/
def fill_fs_childs (h : Host) (dref : Nat) : M Unit := do
  let dir ← readObj dref
  if dir.type ≠ FileType.DIR then pure ()
  else do
    let s ← getS
    let parent ←
      if truthyId dir.parent_id then
        match dir.parent_id with
        | some pid => get_entry_by_id pid
        | none => pure s.root_dir
      else pure s.root_dir
    let acc ← mapErrM os_to_fsexc (do
        let names ← hostOp (.listdir dir.fs_source) (h.listdir dir.fs_source)
        fill_loop h dref names
          [(bs ".", .link (some dref) (bs ".")), (bs "..", .link parent (bs ".."))])
    let dir2 ← readObj dref
    evict_loop dir2.fs_childs acc
    writeObj dref (fun o => { o with fs_childs := acc, nlink := acc.length })

/-- `OverlayFS.get_child_by_name`. -/
def get_child_by_name (h : Host) (dref : Nat) (name : Bytes) : M (Option Slot) := do
  _verify_owned dref
  let dir ← readObj dref
  if dir.type ≠ FileType.DIR then throwM (.fsexc .ERR_NOTDIR none)
  else do
    if dir.fs_childs.length = 0 then fill_fs_childs h dref
    let dir2 ← readObj dref
    pure (alist_lookup dir2.fs_childs name)

/-- `OverlayFS.lookup`. -/
def lookup (h : Host) (dref : Nat) (name : Bytes) : M (Option Slot) := do
  _verify_owned dref
  let dir ← readObj dref
  if dir.type ≠ FileType.DIR then throwM (.fsexc .ERR_NOTDIR none)
  else do
    if dir.fs_childs.length = 0 then fill_fs_childs h dref
    get_child_by_name h dref name

/-- `OverlayFS.readdir`. -/
def readdir (h : Host) (dref : Nat) : M (List Slot) := do
  _verify_owned dref
  let dir ← readObj dref
  if dir.type ≠ FileType.DIR then throwM (.fsexc .ERR_NOTDIR none)
  else do
    fill_fs_childs h dref
    let dir2 ← readObj dref
    pure (dir2.fs_childs.map Prod.snd)

/-- The shared tail of `rmdir`/`rename`/`rm`: `if entry.parent_id:` look
the parent up in the entry table and, when found with a non-empty children
cache, `del parent.fs_childs[name]`. -/
def drop_from_parent (parent_id : Option Nat) (name : Bytes) : M Unit := do
  if truthyId parent_id then
    match parent_id with
    | some pid => do
        let parent ← get_entry_by_id pid
        match parent with
        | some pref => do
            let po ← readObj pref
            if po.fs_childs.length > 0 then
              match alist_erase po.fs_childs name with
              | none => throwM .keyError
              | some d => writeObj pref (fun p => { p with fs_childs := d })
            else pure ()
        | none => pure ()
    | none => pure ()
  else pure ()

/-- `OverlayFS.mkdir`. -/
def mkdir (h : Host) (dref : Nat) (name : Bytes) (attrs : Attrs) : M Nat := do
  _verify_owned dref
  _verify_writable
  let existing ← get_child_by_name h dref name
  if existing.isSome then throwM (.fsexc .ERR_EXIST none)
  else do
    let dest ← readObj dref
    let path := os_path_join dest.fs_source name
    two_fd_io (hostOp (.openf dest.fs_source DIR_OPEN_FLAGS) (h.openf dest.fs_source DIR_OPEN_FLAGS))
      (fun fd1 => hostOp (.mkdirat fd1 name 448) (h.mkdirat fd1 name 448))
      (fun fd1 => hostOp (.openat fd1 path DIR_OPEN_FLAGS) (h.openat fd1 path DIR_OPEN_FLAGS))
      (fun fd2 => set_fd_attrs h fd2 attrs)
    let eref ← create_fsentry h path (some dref)
    track_entry eref
    let e ← readObj eref
    writeObj dref (fun o => { o with fs_childs := alist_insert o.fs_childs e.name (.obj eref) })
    pure eref

/-- `OverlayFS.rmdir`.  `entry == self.root_dir` is object identity. -/
def rmdir (h : Host) (eref : Nat) : M Unit := do
  _verify_owned eref
  _verify_writable
  let o ← readObj eref
  if o.type ≠ FileType.DIR then throwM (.fsexc .ERR_NOTDIR (some "Not a directory"))
  else do
    let s ← getS
    if s.root_dir = some eref then
      throwM (.fsexc .ERR_NOTEMPTY (some "Trying to remove root dir"))
    else do
      mapErrM py_to_fsexc (hostOp (.rmdirf o.fs_source) (h.rmdirf o.fs_source))
      drop_from_parent o.parent_id o.name
      remove_entry (.obj eref)

/-- `OverlayFS.rename`. -/
def rename (h : Host) (sref tref : Nat) (new_name : Bytes) : M Unit := do
  _verify_owned sref
  _verify_owned tref
  _verify_writable
  let to_dir ← readObj tref
  if to_dir.type ≠ FileType.DIR then throwM (.fsexc .ERR_NOTDIR (some "Not a directory"))
  else do
    let path := os_path_join to_dir.fs_source new_name
    let src ← readObj sref
    one_fd_io (hostOp (.openf to_dir.fs_source DIR_OPEN_FLAGS) (h.openf to_dir.fs_source DIR_OPEN_FLAGS))
      (fun fd1 => hostOp (.renameat src.fs_source fd1 new_name)
                    (h.renameat src.fs_source fd1 new_name))
    let eref ← create_fsentry h path (some tref)
    track_entry eref
    let e ← readObj eref
    writeObj tref (fun o => { o with fs_childs := alist_insert o.fs_childs e.name (.obj eref) })
    drop_from_parent src.parent_id src.name
    remove_entry (.obj sref)

/-- `OverlayFS.create_file`. -/
def create_file (h : Host) (dref : Nat) (name : Bytes) (attrs : Attrs) : M Nat := do
  _verify_owned dref
  _verify_writable
  let dest ← readObj dref
  let path := os_path_join dest.fs_source name
  one_fd_io (hostOp (.openf path CREATE_FLAGS) (h.openf path CREATE_FLAGS))
    (fun fd => set_fd_attrs h fd attrs)
  let eref ← create_fsentry h path (some dref)
  track_entry eref
  let e ← readObj eref
  writeObj dref (fun o => { o with fs_childs := alist_insert o.fs_childs e.name (.obj eref) })
  pure eref

/-- `OverlayFS.symlink`. -/
def symlink (h : Host) (dref : Nat) (name : Bytes) (attrs : Attrs) (val : Bytes) : M Nat := do
  _verify_owned dref
  _verify_writable
  let dest ← readObj dref
  let path := os_path_join dest.fs_source name
  two_fd_io (hostOp (.openf dest.fs_source DIR_OPEN_FLAGS) (h.openf dest.fs_source DIR_OPEN_FLAGS))
    (fun fd1 => hostOp (.symlinkat val fd1 name) (h.symlinkat val fd1 name))
    (fun fd1 => hostOp (.openat fd1 name (O_NOFOLLOW ||| O_NOCTTY))
                  (h.openat fd1 name (O_NOFOLLOW ||| O_NOCTTY)))
    (fun fd2 => set_fd_attrs h fd2 attrs)
  let eref ← create_fsentry h path (some dref)
  track_entry eref
  let e ← readObj eref
  writeObj dref (fun o => { o with fs_childs := alist_insert o.fs_childs e.name (.obj eref) })
  pure eref

/-- `OverlayFS.write`. -/
def write (h : Host) (eref : Nat) (offset : Nat) (data : Bytes) : M Nat := do
  _verify_owned eref
  _verify_writable
  let o ← readObj eref
  if o.type ≠ FileType.REG then throwM (.fsexc .ERR_IOErr (some "Not a regular file!"))
  else
    one_fd_io (hostOp (.openf o.fs_source WR_FLAGS) (h.openf o.fs_source WR_FLAGS))
      (fun fd => do
        let res ← hostOp (.pwrite fd data offset) (h.pwrite fd data offset)
        let st ← hostOp (.fstat fd) (h.fstat fd)
        writeObj eref (fun e => fill_fsentry e st)
        pure res)

/-- `OverlayFS.setattrs`. -/
def setattrs (h : Host) (eref : Nat) (attrs : Attrs) : M Unit := do
  _verify_owned eref
  _verify_writable
  let o ← readObj eref
  one_fd_io (hostOp (.openf o.fs_source WR_FLAGS) (h.openf o.fs_source WR_FLAGS))
    (fun fd => do
      set_fd_attrs h fd attrs
      let st ← hostOp (.fstat fd) (h.fstat fd)
      writeObj eref (fun e => fill_fsentry e st))

/-! ### `rm` and `iter_descendants`

`OverlayFS.rm` consumes the lazy generator `iter_descendants` while
mutating, through `del parent.fs_childs[child.name]`, the very dictionaries the
suspended generator frames are iterating.  The model fuses generator and
consumer at the yield points and reproduces the CPython dict-iterator
protocol: every iterator advance (including the final, exhausting one)
first compares the dictionary's current size with the size recorded when
the iterator was created and raises `RuntimeError` on mismatch.  The
`_depth > 1000` guard appears as structural fuel (`fuel = 1001 - depth`,
so `fuel = 0` is `depth = 1001` and raises `ValueError`). -/

/-- Process one yielded child in `rm`'s loop body: `os.remove` under the
two `except` clauses, the parent-cache deletion, and `remove_entry`. -/
def rm_process (h : Host) (sl : Slot) : M Unit := do
  let v ← slotView sl
  mapErrM py_to_fsexc (hostOp (.removef v.fs_source) (h.removef v.fs_source))
  drop_from_parent v.parent_id v.name
  remove_entry sl

/-- The `for child in entry.fs_childs.values():` loop of one generator
frame, fused with `rm`'s per-yield processing; `n0` is the dictionary size
recorded at iterator creation. -/
def rm_children (h : Host) (frame : Slot → M Unit) (owner : Slot) :
    List Slot → Nat → M Unit
  | [], n0 => do
      let o ← slotView owner
      if o.fs_childs.length = n0 then pure () else throwM .runtimeError
  | c :: rest, n0 => do
      let o ← slotView owner
      if o.fs_childs.length = n0 then do
        frame c
        rm_process h c
        rm_children h frame owner rest n0
      else throwM .runtimeError

/-- One `iter_descendants` generator frame as consumed by `rm` (exclusive
of the `inclusive` yield, which the caller performs). -/
def rm_frame (h : Host) : Nat → Slot → M Unit
  | 0, _ => throwM .valueError
  | fuel + 1, sl => do
      let o ← slotView sl
      if o.type = FileType.DIR then
        rm_children h (fun c => rm_frame h fuel c) sl (o.fs_childs.map Prod.snd)
          o.fs_childs.length
      else pure ()

/-- `OverlayFS.rm`: drain `iter_descendants(entry, inclusive=True)`,
processing each yielded entry. -/
def rm (h : Host) (eref : Nat) : M Unit := do
  _verify_owned eref
  _verify_writable
  rm_frame h 1001 (.obj eref)
  rm_process h (.obj eref)

/-- A full drain of the generator `iter_descendants` by a consumer that
does not mutate the adapter (e.g. `list(...)`): the CPython dict-size
checks then always pass and are omitted.  Returns the yielded slots in
order. -/
def iter_children (f : Slot → Except PyErr (List Slot)) :
    List Slot → Except PyErr (List Slot)
  | [] => .ok []
  | c :: rest => do
      let inner ← f c
      let tail ← iter_children f rest
      .ok (inner ++ [c] ++ tail)

/-- `OverlayFS.iter_descendants` (pure drain), fuel `1001 - _depth`. -/
def iter_descendants (s : OverlayFS) : Nat → Slot → Bool → Except PyErr (List Slot)
  | 0, _, _ => .error .valueError
  | fuel + 1, sl, inclusive =>
    match s.slotViewP sl with
    | none => .error .attrError
    | some o => do
        let childs ←
          if o.type = FileType.DIR then
            iter_children (fun c => iter_descendants s fuel c false)
              (o.fs_childs.map Prod.snd)
          else .ok []
        .ok (if inclusive then childs ++ [sl] else childs)

/-- Decidable bound on the cached children tree: the iteration starting at
`sl` with `fuel` budget reaches no frame with exhausted fuel and every
reached slot resolves. -/
def ok_depth (s : OverlayFS) : Nat → Slot → Bool
  | 0, _ => false
  | fuel + 1, sl =>
    match s.slotViewP sl with
    | none => false
    | some o =>
      if o.type = FileType.DIR then
        (o.fs_childs.map Prod.snd).all (fun c => ok_depth s fuel c)
      else true

/-- Every slot reachable within `fuel` frames resolves (link bases exist);
unlike `ok_depth` this holds for deep trees as long as slots resolve. -/
def closed_at (s : OverlayFS) : Nat → Slot → Bool
  | 0, _ => true
  | fuel + 1, sl =>
    match s.slotViewP sl with
    | none => false
    | some o =>
      if o.type = FileType.DIR then
        (o.fs_childs.map Prod.snd).all (fun c => closed_at s fuel c)
      else true

/-- The multiset of occurrences in the cached subtree under `sl`
(including `sl`), the specification of what one inclusive iteration must
yield. -/
def subtree_slots (s : OverlayFS) : Nat → Slot → List Slot
  | 0, _ => []
  | fuel + 1, sl =>
    match s.slotViewP sl with
    | none => [sl]
    | some o =>
      if o.type = FileType.DIR then
        sl :: (o.fs_childs.map Prod.snd).flatMap (fun c => subtree_slots s fuel c)
      else [sl]

/-- `OverlayFS.__init__` run on a blank instance state: create and track
the root entry (the quota fields are recorded, unenforced). -/
def init_fs (h : Host) (rootfs : Bytes) : M Unit := do
  let r ← create_fsentry h rootfs none
  modifyS (fun s => { s with root_dir := some r })
  track_entry r

/-- The state of a freshly constructed instance before `__init__` creates
the root entry. -/
def OverlayFS.blank (read_only : Bool) (mountpoints : List (Bytes × Bytes))
    (fs_id : Nat) : OverlayFS :=
  { num_blocks := 1, free_blocks := 0, avail_blocks := 0
    read_only := read_only, size_quota := none, entries_quota := none
    mountpoints := mountpoints, entries := [], inodes := ⟨[], 0⟩
    root_dir := none, fs_id := fs_id, heap := [], next_ref := 0 }

/-! ### Concrete fixtures for evaluating the theorems -/

/-- A host oracle on which every call fails with `ENOENT`/`EACCES`;
operations that are rejected before host I/O never consult it. -/
def hostX : Host :=
  { lstat := fun _ => .error ENOENT
    listdir := fun _ => .error ENOENT
    openf := fun _ _ => .error EACCES
    openat := fun _ _ _ => .error EACCES
    mkdirat := fun _ _ _ => .error EACCES
    renameat := fun _ _ _ => .error EACCES
    symlinkat := fun _ _ _ => .error EACCES
    removef := fun _ => .error EACCES
    rmdirf := fun _ => .error EACCES
    pwrite := fun _ _ _ => .error EACCES
    fstat := fun _ => .error EACCES
    fchown := fun _ _ _ => .error EACCES
    fchmod := fun _ _ => .error EACCES
    utimef := fun _ _ _ => .error EACCES
    now := 0 }

/-- A tracked root directory entry for the fixture states. -/
def entX : FSEntry :=
  { FSEntry.blank with
    type := .DIR, fileid := 1, fs_links := 1, fs_source := bs "/r", name := bs "r"
    fs_stat := ⟨1, 100, S_IFDIR, 0, 0, 0, 0, 0, 0, 0, 0⟩ }

/-- A read-only instance whose root entry `entX` lives at reference 0. -/
def sRO : OverlayFS :=
  { OverlayFS.blank true [] 0 with
    heap := [(0, entX)], next_ref := 1, entries := [(1, 0)]
    root_dir := some 0, inodes := ⟨[((1, 100), 1)], 1⟩ }

/-- The writable twin of `sRO`. -/
def sRW : OverlayFS := { sRO with read_only := false }

/-- Host for the hardlink scenario: the exported root `/r` lists two names
`a` and `b` that are hardlinks of one regular file (`st_dev = 1`,
`st_ino = 7`). -/
def host4 : Host :=
  { hostX with
    lstat := fun p =>
      if p = bs "/r" then .ok ⟨1, 100, S_IFDIR, 0, 0, 0, 0, 0, 0, 0, 0⟩
      else if p = bs "/r/a" then .ok ⟨1, 7, S_IFREG, 4, 1, 0, 0, 0, 0, 0, 0⟩
      else if p = bs "/r/b" then .ok ⟨1, 7, S_IFREG, 4, 1, 0, 0, 0, 0, 0, 0⟩
      else .error ENOENT
    listdir := fun p => if p = bs "/r" then .ok [bs "a", bs "b"] else .error ENOENT }

/-- The instance exporting `/r` on `host4`, right after `__init__`. -/
def s4 : OverlayFS := (init_fs host4 (bs "/r") (OverlayFS.blank false [] 0)).2.1

/-- The run `lookup(root, b"a")` on the fresh instance: it populates the
root's children cache from the hardlink listing. -/
def run4 : Except PyErr (Option Slot) × OverlayFS × List HostCall :=
  lookup host4 0 (bs "a") s4

/-- A regular-file child entry `c` of the root for the `rm` scenario. -/
def ent9c : FSEntry :=
  { FSEntry.blank with
    type := .REG, fileid := 2, fs_links := 1, fs_source := bs "/r/c", name := bs "c"
    parent_id := some 1, fs_stat := ⟨1, 7, S_IFREG, 0, 0, 0, 0, 0, 0, 0, 0⟩ }

/-- The root directory entry with `c` in its children cache. -/
def ent9d : FSEntry := { entX with fs_childs := [(bs "c", .obj 1)] }

/-- A writable instance whose root (ref 0) caches one child `c` (ref 1). -/
def s9 : OverlayFS :=
  { OverlayFS.blank false [] 0 with
    heap := [(0, ent9d), (1, ent9c)], next_ref := 2, entries := [(1, 0), (2, 1)]
    root_dir := some 0, inodes := ⟨[((1, 100), 1), ((1, 7), 2)], 2⟩ }

/-- Host on which removing `/r/c` succeeds. -/
def host9 : Host :=
  { hostX with removef := fun p => if p = bs "/r/c" then .ok () else .error EACCES }

/-- The run `rm(root)` on the one-child directory. -/
def run9 : Except PyErr Unit × OverlayFS × List HostCall := rm host9 0 s9

/-- A writable instance exporting `/r` with the mountpoint override
`/m ↦ /p` registered. -/
def s6 : OverlayFS := { sRW with mountpoints := [(bs "/m", bs "/p")] }

/-- Host for the mountpoint scenario: both the raw path `/r/m/x` and the
override root `/p` stat successfully. -/
def host6 : Host :=
  { hostX with
    lstat := fun p =>
      if p = bs "/r/m/x" then .ok ⟨1, 50, S_IFREG, 0, 0, 0, 0, 0, 0, 0, 0⟩
      else if p = bs "/p" then .ok ⟨2, 60, S_IFDIR, 0, 0, 0, 0, 0, 0, 0, 0⟩
      else .error ENOENT }

/-- Entry creation for `/r/m/x`, a path strictly below the override key. -/
def run6 : Except PyErr Nat × OverlayFS × List HostCall :=
  create_fsentry host6 (bs "/r/m/x") none s6

/-- Entry creation for `/r/m`, a path exactly matching the override key. -/
def run6b : Except PyErr Nat × OverlayFS × List HostCall :=
  create_fsentry host6 (bs "/r/m") none s6

/-- A computation is mountpoint-agnostic when replacing the mountpoint
table of the input state only carries the replaced table through: result
and trace are unchanged and the output state differs only in the table.
Every operation except `create_fsentry` is agnostic — the resolved
physical path is cached on the entry and never re-derived. -/
def MpAgn {α : Type} (x : M α) : Prop :=
  ∀ (u : OverlayFS) (mp : List (Bytes × Bytes)),
    x { u with mountpoints := mp }
      = ((x u).1, { (x u).2.1 with mountpoints := mp }, (x u).2.2)

/-- Heap well-formedness: every allocated reference is below the
allocation counter (true of every state built by the operations, which
allocate only via `allocObj`). -/
def heap_lt (s : OverlayFS) : Prop := ∀ p ∈ s.heap, p.1 < s.next_ref

/-- A subdirectory `d` of the root, with an empty children cache, for the
dot-entry scenario. -/
def dirD : FSEntry :=
  { FSEntry.blank with
    type := .DIR, fileid := 2, fs_links := 1, fs_source := bs "/r/d", name := bs "d"
    parent_id := some 1, fs_stat := ⟨1, 50, S_IFDIR, 0, 0, 0, 0, 0, 0, 0, 0⟩ }

/-- A writable instance with root (ref 0) and subdirectory `d` (ref 1). -/
def s7 : OverlayFS :=
  { OverlayFS.blank false [] 0 with
    heap := [(0, entX), (1, dirD)], next_ref := 2, entries := [(1, 0), (2, 1)]
    root_dir := some 0, inodes := ⟨[((1, 100), 1), ((1, 50), 2)], 2⟩ }

/-- Host for the dot-entry scenario: `/r/d` lists one regular file `a`. -/
def host7 : Host :=
  { hostX with
    listdir := fun p => if p = bs "/r/d" then .ok [bs "a"] else .error ENOENT
    lstat := fun p =>
      if p = bs "/r/d/a" then .ok ⟨1, 7, S_IFREG, 0, 0, 0, 0, 0, 0, 0, 0⟩
      else .error ENOENT }

/-- A directory entry whose cached children contain itself: the smallest
cycle among cached directory entries. -/
def entC : FSEntry := { entX with fs_childs := [(bs "x", .obj 0)] }

/-- A writable instance whose root entry (ref 0) is its own cached child. -/
def sC : OverlayFS :=
  { OverlayFS.blank false [] 0 with
    heap := [(0, entC)], next_ref := 1, entries := [(1, 0)], root_dir := some 0 }

/-! ### Monad runtime lemmas -/

@[simp]
theorem bind_run {α β : Type} (x : M α) (f : α → M β) (s : OverlayFS) :
    (x >>= f) s =
      match x s with
      | (.ok a, s1, t1) =>
        match f a s1 with
        | (r, s2, t2) => (r, s2, t1 ++ t2)
      | (.error e, s1, t1) => (.error e, s1, t1) := rfl

@[simp]
theorem pure_run {α : Type} (a : α) (s : OverlayFS) :
    (pure a : M α) s = (.ok a, s, []) := rfl

@[simp]
theorem throwM_run {α : Type} (e : PyErr) (s : OverlayFS) :
    (throwM e : M α) s = (.error e, s, []) := rfl

@[simp]
theorem getS_run (s : OverlayFS) : getS s = (.ok s, s, []) := rfl

@[simp]
theorem setS_run (s' s : OverlayFS) : setS s' s = (.ok (), s', []) := rfl

@[simp]
theorem modifyS_run (f : OverlayFS → OverlayFS) (s : OverlayFS) :
    modifyS f s = (.ok (), f s, []) := rfl

@[simp]
theorem hostOp_run {α : Type} (c : HostCall) (r : Except Nat α) (s : OverlayFS) :
    hostOp c r s =
      (match r with
       | .ok a => .ok a
       | .error n => .error (.osError n), s, [c]) := rfl

@[simp]
theorem readObj_run (r : Nat) (s : OverlayFS) :
    readObj r s =
      match s.getObj r with
      | some o => (.ok o, s, [])
      | none => (.error .attrError, s, []) := rfl

@[simp]
theorem mapErrM_run {α : Type} (f : PyErr → PyErr) (x : M α) (s : OverlayFS) :
    mapErrM f x s =
      match x s with
      | (.ok a, s1, t1) => (.ok a, s1, t1)
      | (.error e, s1, t1) => (.error (f e), s1, t1) := rfl

/-! ### Serialization lemmas -/

theorem pack_u64_length (k n : Nat) : (pack_u64 k n).length = k := by
  induction k generalizing n with
  | zero => rfl
  | succ k ih => simp [pack_u64, ih]

theorem pack_u64_bytes_lt (k n : Nat) : ∀ b ∈ pack_u64 k n, b < 256 := by
  induction k generalizing n with
  | zero => simp [pack_u64]
  | succ k ih =>
    intro b hb
    simp only [pack_u64, List.mem_append, List.mem_singleton] at hb
    rcases hb with hb | hb
    · exact ih _ b hb
    · subst hb; exact Nat.mod_lt _ (by norm_num)

theorem unpack_u64_append_singleton (l : Bytes) (b : Nat) :
    unpack_u64 (l ++ [b]) = unpack_u64 l * 256 + b := by
  simp [unpack_u64, List.foldl_append]

theorem unpack_pack_u64 (k n : Nat) (h : n < 256 ^ k) :
    unpack_u64 (pack_u64 k n) = n := by
  induction k generalizing n with
  | zero =>
    simp [pack_u64, unpack_u64]
    omega
  | succ k ih =>
    have hdiv : n / 256 < 256 ^ k := by
      rw [Nat.div_lt_iff_lt_mul (by norm_num : 0 < 256)]
      calc n < 256 ^ (k + 1) := h
        _ = 256 ^ k * 256 := by ring
    rw [pack_u64, unpack_u64_append_singleton, ih _ hdiv]
    omega

theorem pack_unpack_u64 (l : Bytes) (hb : ∀ b ∈ l, b < 256) :
    pack_u64 l.length (unpack_u64 l) = l := by
  induction l using List.reverseRecOn with
  | nil => rfl
  | append_singleton l b ih =>
    have hblt : b < 256 := hb b (by simp)
    have hbl : ∀ x ∈ l, x < 256 := fun x hx => hb x (by simp [hx])
    rw [unpack_u64_append_singleton]
    have hlen : (l ++ [b]).length = l.length + 1 := by simp
    rw [hlen, pack_u64]
    have hd : (unpack_u64 l * 256 + b) / 256 = unpack_u64 l := by omega
    have hm : (unpack_u64 l * 256 + b) % 256 = b := by omega
    rw [hd, hm, ih hbl]

theorem unpack_u64_lt (l : Bytes) (hb : ∀ b ∈ l, b < 256) :
    unpack_u64 l < 256 ^ l.length := by
  induction l using List.reverseRecOn with
  | nil => simp [unpack_u64]
  | append_singleton l b ih =>
    have hblt : b < 256 := hb b (by simp)
    have hbl : ∀ x ∈ l, x < 256 := fun x hx => hb x (by simp [hx])
    rw [unpack_u64_append_singleton]
    have := ih hbl
    have hlen : (l ++ [b]).length = l.length + 1 := by simp
    rw [hlen, pow_succ]
    nlinarith

open OverlayFileHandleEncoder in
theorem calc_mac_length (enc : OverlayFileHandleEncoder) (data : Bytes) (v : Bool)
    (hd : (enc.hmac_digest data).length = 32) :
    (enc.calc_mac data v).length = mac_len v := by
  simp only [calc_mac, List.length_take, hd, mac_len]
  cases v <;> simp

/-- C1 (amended): for 64-bit representable ids, `encode(entry, compact)`
returns `digest || fileid (8 bytes BE) || fsid (8 bytes BE)` where the
digest is the keyed digest over the 16-byte payload truncated to 16 bytes in
the compact (NFSv2) variant and 32 bytes otherwise; the total handle length
is therefore 32 bytes (compact) resp. 48 bytes (non-compact), not the
24/40 of the claim. -/
theorem encode_layout (enc : OverlayFileHandleEncoder) (fileid fsid : Nat) (nfs_v2 : Bool)
    (hf : fileid < 2 ^ 64) (hs : fsid < 2 ^ 64)
    (hd : (enc.hmac_digest (pack_u64 8 fileid ++ pack_u64 8 fsid)).length = 32) :
    ∃ fh, enc.encode fileid fsid nfs_v2 = .ok fh ∧
      fh = enc.calc_mac (pack_u64 8 fileid ++ pack_u64 8 fsid) nfs_v2
            ++ (pack_u64 8 fileid ++ pack_u64 8 fsid) ∧
      fh.take (OverlayFileHandleEncoder.mac_len nfs_v2)
        = enc.calc_mac (pack_u64 8 fileid ++ pack_u64 8 fsid) nfs_v2 ∧
      fh.drop (OverlayFileHandleEncoder.mac_len nfs_v2)
        = pack_u64 8 fileid ++ pack_u64 8 fsid ∧
      (pack_u64 8 fileid ++ pack_u64 8 fsid).length = 16 ∧
      fh.length = if nfs_v2 then 32 else 48 := by
  have hm := calc_mac_length enc (pack_u64 8 fileid ++ pack_u64 8 fsid) nfs_v2 hd
  have hp : (pack_u64 8 fileid ++ pack_u64 8 fsid).length = 16 := by
    simp [pack_u64_length]
  refine ⟨_, ?_, rfl, ?_, ?_, hp, ?_⟩
  · simp only [OverlayFileHandleEncoder.encode]
    rw [if_pos (⟨hf, hs⟩ : fileid < 2 ^ 64 ∧ fsid < 2 ^ 64)]
  · exact List.take_left' hm
  · exact List.drop_left' hm
  · simp only [List.length_append, hm, hp, OverlayFileHandleEncoder.mac_len]
    cases nfs_v2 <;> simp

/-- C2: for both digest-length variants and all representable 64-bit pairs,
`decode(encode(x)) == x`. -/
theorem decode_encode_roundtrip (enc : OverlayFileHandleEncoder) (fileid fsid : Nat)
    (nfs_v2 : Bool) (hf : fileid < 2 ^ 64) (hs : fsid < 2 ^ 64)
    (hd : ∀ d, (enc.hmac_digest d).length = 32) :
    ∃ fh, enc.encode fileid fsid nfs_v2 = .ok fh ∧
      enc.decode fh nfs_v2 = .ok (fileid, fsid) := by
  obtain ⟨fh, henc, hlay, htake, hdrop, hplen, _⟩ :=
    encode_layout enc fileid fsid nfs_v2 hf hs (hd _)
  refine ⟨fh, henc, ?_⟩
  have hm := calc_mac_length enc (pack_u64 8 fileid ++ pack_u64 8 fsid) nfs_v2 (hd _)
  have hfhlen : fh.length = 16 + OverlayFileHandleEncoder.mac_len nfs_v2 := by
    rw [hlay]
    simp only [List.length_append, hm, hplen]
    omega
  have hptake : (pack_u64 8 fileid ++ pack_u64 8 fsid).take 8 = pack_u64 8 fileid :=
    List.take_left' (pack_u64_length 8 fileid)
  have hpdrop : (pack_u64 8 fileid ++ pack_u64 8 fsid).drop 8 = pack_u64 8 fsid :=
    List.drop_left' (pack_u64_length 8 fileid)
  simp only [OverlayFileHandleEncoder.decode, hfhlen, htake, hdrop]
  simp [hptake, hpdrop, unpack_pack_u64 8 fileid (by norm_num at hf ⊢; omega),
    unpack_pack_u64 8 fsid (by norm_num at hs ⊢; omega)]

/-- C3: `decode` fails with a generic I/O `FSException` when the length is
not `digest_length + 16` or when the leading digest differs from the digest
recomputed over the trailing 16-byte payload; when it succeeds, the returned
pair is exactly the big-endian deserialization of the payload and the input
is precisely the genuine encoding of that pair — never a silent wrong
decode (a mutated handle can only be accepted if the truncated digests
collide, in which case the accepted handle is itself a genuine encoding of
the pair it returns). -/
theorem decode_characterization (enc : OverlayFileHandleEncoder) (fh : Bytes) (nfs_v2 : Bool) :
    (fh.length ≠ 16 + OverlayFileHandleEncoder.mac_len nfs_v2 →
      enc.decode fh nfs_v2 = .error (.fsexc .ERR_IOErr (some "FH is not expected_len bytes"))) ∧
    (fh.length = 16 + OverlayFileHandleEncoder.mac_len nfs_v2 →
      fh.take (OverlayFileHandleEncoder.mac_len nfs_v2)
        ≠ enc.calc_mac (fh.drop (OverlayFileHandleEncoder.mac_len nfs_v2)) nfs_v2 →
      enc.decode fh nfs_v2 = .error (.fsexc .ERR_IOErr (some "FH failed sig check"))) ∧
    (∀ a b, enc.decode fh nfs_v2 = .ok (a, b) → (∀ x ∈ fh, x < 256) →
      a = unpack_u64 ((fh.drop (OverlayFileHandleEncoder.mac_len nfs_v2)).take 8) ∧
      b = unpack_u64 ((fh.drop (OverlayFileHandleEncoder.mac_len nfs_v2)).drop 8) ∧
      enc.encode a b nfs_v2 = .ok fh) := by
  refine ⟨?_, ?_, ?_⟩
  · intro hlen
    simp [OverlayFileHandleEncoder.decode, hlen]
  · intro hlen hmac
    simp [OverlayFileHandleEncoder.decode, hlen, hmac]
  · intro a b hok hbytes
    by_cases hlen : fh.length = 16 + OverlayFileHandleEncoder.mac_len nfs_v2
    · by_cases hmac : fh.take (OverlayFileHandleEncoder.mac_len nfs_v2)
        = enc.calc_mac (fh.drop (OverlayFileHandleEncoder.mac_len nfs_v2)) nfs_v2
      · simp only [OverlayFileHandleEncoder.decode] at hok
        rw [if_neg (by simp [hlen])] at hok
        rw [if_neg (by simp [hmac])] at hok
        simp only [Except.ok.injEq, Prod.mk.injEq] at hok
        obtain ⟨ha, hb⟩ := hok
        replace ha := ha.symm
        replace hb := hb.symm
        refine ⟨ha, hb, ?_⟩
        set p := fh.drop (OverlayFileHandleEncoder.mac_len nfs_v2) with hp
        have hpl : p.length = 16 := by
          simp [hp, hlen]
        have hpb : ∀ x ∈ p, x < 256 := fun x hx => hbytes x (List.mem_of_mem_drop hx)
        have htb : ∀ x ∈ p.take 8, x < 256 := fun x hx => hpb x (List.mem_of_mem_take hx)
        have hdb : ∀ x ∈ p.drop 8, x < 256 := fun x hx => hpb x (List.mem_of_mem_drop hx)
        have htl : (p.take 8).length = 8 := by simp [hpl]
        have hdl : (p.drop 8).length = 8 := by simp [hpl]
        have haub : a < 2 ^ 64 := by
          rw [ha]
          have := unpack_u64_lt (p.take 8) htb
          rw [htl] at this
          norm_num at this ⊢
          omega
        have hbub : b < 2 ^ 64 := by
          rw [hb]
          have := unpack_u64_lt (p.drop 8) hdb
          rw [hdl] at this
          norm_num at this ⊢
          omega
        have hpa : pack_u64 8 a = p.take 8 := by
          have h8 := pack_unpack_u64 (p.take 8) htb
          rw [htl] at h8
          rw [ha]; exact h8
        have hpb8 : pack_u64 8 b = p.drop 8 := by
          have h8 := pack_unpack_u64 (p.drop 8) hdb
          rw [hdl] at h8
          rw [hb]; exact h8
        have hpsplit : pack_u64 8 a ++ pack_u64 8 b = p := by
          rw [hpa, hpb8, List.take_append_drop]
        simp only [OverlayFileHandleEncoder.encode]
        rw [if_pos (⟨haub, hbub⟩ : a < 2 ^ 64 ∧ b < 2 ^ 64)]
        simp only [hpsplit, hp]
        rw [← hmac, List.take_append_drop]
      · simp only [OverlayFileHandleEncoder.decode] at hok
        rw [if_neg (by simp [hlen])] at hok
        rw [if_pos hmac] at hok
        cases hok
    · simp only [OverlayFileHandleEncoder.decode] at hok
      rw [if_pos hlen] at hok
      cases hok

theorem encX_digest_length (d : Bytes) : (encX.hmac_digest d).length = 32 := by
  simp [encX]

/-- C1 counterexample: at the concrete input `(5, 7)` in the compact
variant the encoded handle is 32 bytes long, not the 24 bytes the claim
states (the non-compact handle is likewise 48 bytes, not 40). -/
theorem encode_length_counterexample :
    (encX.encode 5 7 true).map List.length = .ok 32 ∧
    (encX.encode 5 7 false).map List.length = .ok 48 ∧
    (32 : Nat) ≠ 24 ∧ (48 : Nat) ≠ 40 := by
  refine ⟨by rfl, by rfl, by decide, by decide⟩

/-- Witness for `encode_layout` at the concrete input `(5, 7)`. -/
theorem encode_layout_witness :
    ∃ fh, encX.encode 5 7 true = .ok fh ∧ fh.length = if true then 32 else 48 := by
  obtain ⟨fh, h1, _, _, _, _, h6⟩ :=
    encode_layout encX 5 7 true (by norm_num) (by norm_num) (encX_digest_length _)
  exact ⟨fh, h1, h6⟩

/-- Witness for `decode_encode_roundtrip` at the concrete input `(3, 9)`. -/
theorem decode_encode_roundtrip_witness :
    ∃ fh, encX.encode 3 9 false = .ok fh ∧ encX.decode fh false = .ok (3, 9) :=
  decode_encode_roundtrip encX 3 9 false (by norm_num) (by norm_num)
    (fun _ => encX_digest_length _)

/-- Witness for `decode_characterization`: a short handle is rejected for
length, a 32-byte handle with a wrong digest is rejected by the signature
check, and a successfully decoded handle is the genuine encoding of the
returned pair. -/
theorem decode_characterization_witness :
    OverlayFileHandleEncoder.decode encX (List.replicate 31 0) true
      = .error (.fsexc .ERR_IOErr (some "FH is not expected_len bytes")) ∧
    OverlayFileHandleEncoder.decode encX (List.replicate 32 0) true
      = .error (.fsexc .ERR_IOErr (some "FH failed sig check")) ∧
    encX.encode 3 4 true
      = .ok (encX.calc_mac (pack_u64 8 3 ++ pack_u64 8 4) true
              ++ (pack_u64 8 3 ++ pack_u64 8 4)) :=
  ⟨(decode_characterization encX (List.replicate 31 0) true).1 (by decide),
   (decode_characterization encX (List.replicate 32 0) true).2.1 (by decide) (by decide),
   ((decode_characterization encX
      (encX.calc_mac (pack_u64 8 3 ++ pack_u64 8 4) true
        ++ (pack_u64 8 3 ++ pack_u64 8 4)) true).2.2 3 4 (by rfl) (by decide)).2.2⟩

/-! ### Read-only rejection (C8) -/

/-- C8: each mutating operation (mkdir, rmdir, rename, create_file, rm,
write, symlink, setattrs), invoked on a read-only instance with entry
arguments owned by that instance, fails with ReadOnlyFilesystem; the
returned state is the unchanged input state and the host-call trace is
empty (no host I/O). -/
theorem readonly_rejects_mutations (h : Host) (s : OverlayFS) (hro : s.read_only = true) :
    (∀ d o name attrs, s.getObj d = some o → o.fs_owner = s.fs_id →
      mkdir h d name attrs s = (.error (.fsexc .ERR_ROFS none), s, [])) ∧
    (∀ e o, s.getObj e = some o → o.fs_owner = s.fs_id →
      rmdir h e s = (.error (.fsexc .ERR_ROFS none), s, [])) ∧
    (∀ e o t p nm, s.getObj e = some o → o.fs_owner = s.fs_id →
      s.getObj t = some p → p.fs_owner = s.fs_id →
      rename h e t nm s = (.error (.fsexc .ERR_ROFS none), s, [])) ∧
    (∀ d o name attrs, s.getObj d = some o → o.fs_owner = s.fs_id →
      create_file h d name attrs s = (.error (.fsexc .ERR_ROFS none), s, [])) ∧
    (∀ e o, s.getObj e = some o → o.fs_owner = s.fs_id →
      rm h e s = (.error (.fsexc .ERR_ROFS none), s, [])) ∧
    (∀ e o offset data, s.getObj e = some o → o.fs_owner = s.fs_id →
      write h e offset data s = (.error (.fsexc .ERR_ROFS none), s, [])) ∧
    (∀ d o name attrs val, s.getObj d = some o → o.fs_owner = s.fs_id →
      symlink h d name attrs val s = (.error (.fsexc .ERR_ROFS none), s, [])) ∧
    (∀ e o attrs, s.getObj e = some o → o.fs_owner = s.fs_id →
      setattrs h e attrs s = (.error (.fsexc .ERR_ROFS none), s, [])) := by
  refine ⟨?_, ?_, ?_, ?_, ?_, ?_, ?_, ?_⟩
  · intro d o name attrs ho hown
    simp [mkdir, _verify_owned, _verify_writable, ho, hown, hro]
  · intro e o ho hown
    simp [rmdir, _verify_owned, _verify_writable, ho, hown, hro]
  · intro e o t p nm ho hown hp hpown
    simp [rename, _verify_owned, _verify_writable, ho, hown, hp, hpown, hro]
  · intro d o name attrs ho hown
    simp [create_file, _verify_owned, _verify_writable, ho, hown, hro]
  · intro e o ho hown
    simp [rm, _verify_owned, _verify_writable, ho, hown, hro]
  · intro e o offset data ho hown
    simp [write, _verify_owned, _verify_writable, ho, hown, hro]
  · intro d o name attrs val ho hown
    simp [symlink, _verify_owned, _verify_writable, ho, hown, hro]
  · intro e o attrs ho hown
    simp [setattrs, _verify_owned, _verify_writable, ho, hown, hro]

/-- Witness for `readonly_rejects_mutations`: all eight mutating
operations on the concrete read-only state `sRO`. -/
theorem readonly_rejects_mutations_witness :
    mkdir hostX 0 (bs "n") ⟨none, none, none, none, none⟩ sRO
      = (.error (.fsexc .ERR_ROFS none), sRO, []) ∧
    rmdir hostX 0 sRO = (.error (.fsexc .ERR_ROFS none), sRO, []) ∧
    rename hostX 0 0 (bs "n") sRO = (.error (.fsexc .ERR_ROFS none), sRO, []) ∧
    create_file hostX 0 (bs "n") ⟨none, none, none, none, none⟩ sRO
      = (.error (.fsexc .ERR_ROFS none), sRO, []) ∧
    rm hostX 0 sRO = (.error (.fsexc .ERR_ROFS none), sRO, []) ∧
    write hostX 0 0 (bs "x") sRO = (.error (.fsexc .ERR_ROFS none), sRO, []) ∧
    symlink hostX 0 (bs "n") ⟨none, none, none, none, none⟩ (bs "/t") sRO
      = (.error (.fsexc .ERR_ROFS none), sRO, []) ∧
    setattrs hostX 0 ⟨none, none, none, none, none⟩ sRO
      = (.error (.fsexc .ERR_ROFS none), sRO, []) := by
  have h := readonly_rejects_mutations hostX sRO (by rfl)
  exact ⟨h.1 0 entX (bs "n") _ (by rfl) (by rfl),
    h.2.1 0 entX (by rfl) (by rfl),
    h.2.2.1 0 entX 0 entX (bs "n") (by rfl) (by rfl) (by rfl) (by rfl),
    h.2.2.2.1 0 entX (bs "n") _ (by rfl) (by rfl),
    h.2.2.2.2.1 0 entX (by rfl) (by rfl),
    h.2.2.2.2.2.1 0 entX 0 (bs "x") (by rfl) (by rfl),
    h.2.2.2.2.2.2.1 0 entX (bs "n") _ (bs "/t") (by rfl) (by rfl),
    h.2.2.2.2.2.2.2 0 entX _ (by rfl) (by rfl)⟩

/-! ### Root removal (C5) -/

/-- C5 (amended): remove_directory applied to the root entry never reaches
a host call and never removes the root: on a writable instance it fails
with DirectoryNotEmpty regardless of whether the root is empty on the host
(the host oracle is arbitrary and the trace is empty); on a read-only
instance the read-only precondition fires first, so the failure is
ReadOnlyFilesystem instead.  In both cases the in-memory state is
unchanged. -/
theorem rmdir_root_behavior (h : Host) (s : OverlayFS) (r : Nat) (o : FSEntry)
    (hroot : s.root_dir = some r) (ho : s.getObj r = some o)
    (hown : o.fs_owner = s.fs_id) (hdir : o.type = FileType.DIR) :
    (s.read_only = false →
      rmdir h r s
        = (.error (.fsexc .ERR_NOTEMPTY (some "Trying to remove root dir")), s, [])) ∧
    (s.read_only = true →
      rmdir h r s = (.error (.fsexc .ERR_ROFS none), s, [])) := by
  constructor
  · intro hro
    simp [rmdir, _verify_owned, _verify_writable, ho, hown, hro, hdir, hroot]
  · intro hro
    simp [rmdir, _verify_owned, _verify_writable, ho, hown, hro]

/-- C5 counterexample: on a read-only instance `rmdir(root)` fails with
ReadOnlyFilesystem, not DirectoryNotEmpty, refuting "fails with
DirectoryNotEmpty in every state". -/
theorem rmdir_root_readonly_counterexample :
    rmdir hostX 0 sRO = (.error (.fsexc .ERR_ROFS none), sRO, []) ∧
    PyErr.fsexc .ERR_ROFS none
      ≠ .fsexc .ERR_NOTEMPTY (some "Trying to remove root dir") :=
  ⟨by rfl, by decide⟩

/-- Witness for `rmdir_root_behavior`: both arms at the concrete states
`sRW` (writable) and `sRO` (read-only). -/
theorem rmdir_root_behavior_witness :
    rmdir hostX 0 sRW
      = (.error (.fsexc .ERR_NOTEMPTY (some "Trying to remove root dir")), sRW, []) ∧
    rmdir hostX 0 sRO = (.error (.fsexc .ERR_ROFS none), sRO, []) :=
  ⟨(rmdir_root_behavior hostX sRW 0 entX rfl rfl rfl rfl).1 rfl,
   (rmdir_root_behavior hostX sRO 0 entX rfl rfl rfl rfl).2 rfl⟩

/-! ### Entry uniqueness under hardlinks (C4) -/

/-- C4 (code-bug evaluation): after `lookup(root, b"a")` on a fresh
instance whose exported root lists two hardlinked names `a` and `b`, two
distinct `FSEntry` objects (heap references 1 and 2) both carry the live
LogicalId 2 with positive reference counts: the entry table maps 2 to the
first object while the second is reachable through the root's children
cache under the name `b`.  `track_entry` skipped the table insert for the
duplicate but still incremented the duplicate's own count instead of the
tracked entry's. -/
theorem hardlink_duplicate_live_entry :
    run4.1 = .ok (some (.obj 1)) ∧
    (run4.2.1.getObj 1).map (fun o => o.fileid) = some 2 ∧
    (run4.2.1.getObj 2).map (fun o => o.fileid) = some 2 ∧
    (run4.2.1.getObj 1).map (fun o => o.fs_links) = some 1 ∧
    (run4.2.1.getObj 2).map (fun o => o.fs_links) = some 1 ∧
    alist_lookup run4.2.1.entries 2 = some 1 ∧
    (run4.2.1.getObj 0).map (fun o => alist_lookup o.fs_childs (bs "b"))
      = some (some (.obj 2)) ∧
    (1 : Nat) ≠ 2 :=
  ⟨rfl, rfl, rfl, rfl, rfl, rfl, rfl, by decide⟩

/-! ### Recursive removal (C9) -/

/-- C9 (code-bug evaluation): `rm` on a directory whose children cache
holds one regular file removes that child on the host, evicts it from the
cache and untracks it, and then raises an uncaught
`RuntimeError("dictionary changed size during iteration")` when the
suspended `iter_descendants` generator advances over the dictionary `rm`
just shrank — the entry itself is never removed (only one host `remove`
appears in the trace). -/
theorem rm_child_removal_runtime_error :
    run9.1 = .error .runtimeError ∧
    run9.2.2 = [.removef (bs "/r/c")] ∧
    (run9.2.1.getObj 0).map (fun o => o.fs_childs) = some [] ∧
    alist_lookup run9.2.1.entries 2 = none ∧
    alist_lookup run9.2.1.entries 1 = some 0 ∧
    run9.2.1.inodes = ⟨[((1, 100), 1)], 2⟩ :=
  ⟨rfl, rfl, rfl, rfl, rfl, rfl⟩

/-! ### Mountpoint resolution (C6) -/

theorem MpAgn.pure {α : Type} (a : α) : MpAgn (Pure.pure a : M α) := fun _ _ => rfl

theorem MpAgn.throw {α : Type} (e : PyErr) : MpAgn (throwM e : M α) := fun _ _ => rfl

theorem MpAgn.host {α : Type} (c : HostCall) (r : Except Nat α) : MpAgn (hostOp c r) := by
  intro u mp
  rcases r with n | a <;> rfl

theorem MpAgn.bind {α β : Type} {x : M α} {f : α → M β}
    (hx : MpAgn x) (hf : ∀ a, MpAgn (f a)) : MpAgn (x >>= f) := by
  intro u mp
  simp only [bind_run, hx u mp]
  rcases hxu : x u with ⟨r, s1, t1⟩
  rcases r with e | a
  · rfl
  · simp only [hf a s1 mp]

theorem MpAgn.ite {α : Type} (c : Prop) [Decidable c] {x y : M α}
    (hx : MpAgn x) (hy : MpAgn y) : MpAgn (if c then x else y) := by
  by_cases hc : c
  · simpa [hc] using hx
  · simpa [hc] using hy

theorem MpAgn.readObj (r : Nat) : MpAgn (readObj r) := by
  intro u mp
  simp only [readObj_run, OverlayFS.getObj]
  rcases hu : alist_lookup u.heap r with _ | o <;> simp [hu]

theorem MpAgn.writeObj (r : Nat) (f : FSEntry → FSEntry) : MpAgn (writeObj r f) :=
  fun _ _ => rfl

theorem MpAgn.verify_owned (r : Nat) : MpAgn (_verify_owned r) := by
  apply MpAgn.bind (MpAgn.readObj r)
  intro o
  intro u mp
  simp only [bind_run, getS_run]
  by_cases hw : o.fs_owner = u.fs_id
  · simp [hw]
  · simp [hw]

theorem MpAgn.verify_writable : MpAgn _verify_writable := by
  intro u mp
  simp only [_verify_writable, bind_run, getS_run]
  by_cases hw : u.read_only
  · simp [hw]
  · simp [hw]

theorem MpAgn.one_fd {α : Type} {opener : M Nat} {body : Nat → M α}
    (ho : MpAgn opener) (hb : ∀ fd, MpAgn (body fd)) : MpAgn (one_fd_io opener body) := by
  intro u mp
  simp only [one_fd_io, ho u mp]
  rcases opener u with ⟨r, s1, t1⟩
  rcases r with e | fd
  · rfl
  · simp only [hb fd s1 mp]
    rcases body fd s1 with ⟨r2, s2, t2⟩
    rcases r2 with e | a <;> rfl

/-- `write` never consults the mountpoint table: its run on a state with a
replaced table is the same run with the table merely carried through
(the host path always comes from the entry's cached `fs_source`). -/
theorem write_ignores_mountpoints (h : Host) (eref offset : Nat) (data : Bytes) :
    MpAgn (write h eref offset data) := by
  apply MpAgn.bind (MpAgn.verify_owned eref)
  intro _
  apply MpAgn.bind MpAgn.verify_writable
  intro _
  apply MpAgn.bind (MpAgn.readObj eref)
  intro o
  apply MpAgn.ite
  · exact MpAgn.throw _
  · apply MpAgn.one_fd (MpAgn.host _ _)
    intro fd
    apply MpAgn.bind (MpAgn.host _ _)
    intro res
    apply MpAgn.bind (MpAgn.host _ _)
    intro st
    apply MpAgn.bind (MpAgn.writeObj _ _)
    intro _
    exact MpAgn.pure _

theorem alist_lookup_append_right {α β : Type} [DecidableEq α]
    (l : List (α × β)) (k : α) (v : β) (h : alist_lookup l k = none) :
    alist_lookup (l ++ [(k, v)]) k = some v := by
  induction l with
  | nil => simp [alist_lookup]
  | cons p rest ih =>
    rcases p with ⟨k', v'⟩
    by_cases hk : k' = k
    · simp [alist_lookup, hk] at h
    · simp only [alist_lookup, hk, if_neg hk, List.cons_append] at h ⊢
      exact ih h

/-- C6 (amended): entry creation resolves the physical path exactly once,
as follows: if the normalized logical path, minus as many leading bytes as
the export root's cached path has, is an exact key of the mountpoint table
(with a non-empty physical root), the cached physical path is exactly that
override's physical root; every other path — including paths strictly
below a registered key — uses the (export-root based) logical path
verbatim.  The resolved path is cached as `fs_source` and later operations
never re-derive it: `write` is invariant under replacing the whole
mountpoint table. -/
theorem create_fsentry_resolution (h : Host) (s : OverlayFS) (path : Bytes)
    (rref : Nat) (ro : FSEntry) (st : StatInfo) (tgt : Bytes)
    (hroot : s.root_dir = some rref) (hro : s.getObj rref = some ro)
    (hfresh : alist_lookup s.heap s.next_ref = none)
    (htgt : tgt = (match alist_lookup s.mountpoints
        ((os_path_abspath path).drop ro.fs_source.length) with
      | some ov => if ov ≠ [] then ov else os_path_abspath path
      | none => os_path_abspath path))
    (hst : h.lstat tgt = .ok st) :
    (create_fsentry h path none s).1 = .ok s.next_ref ∧
    ((create_fsentry h path none s).2.1.getObj s.next_ref).map (fun o => o.fs_source)
      = some tgt ∧
    (create_fsentry h path none s).2.2 = [.lstat tgt] ∧
    (∀ eref offset data, MpAgn (write h eref offset data)) := by
  have hrun : ∃ s', create_fsentry h path none s
      = (.ok s.next_ref, s',
         [.lstat tgt]) ∧ s'.getObj s.next_ref
        = some { fill_fsentry FSEntry.blank st with
            fs_source := tgt, fs_links := 0, fs_childs := [], fs_owner := s.fs_id
            type := filetype_of_mode st.st_mode, name := os_path_basename (os_path_abspath path)
            parent_id := none, fileid := (s.inodes.get st.st_dev st.st_ino).1, nlink := 2 } := by
    simp only [create_fsentry, bind_run, getS_run, readObj_run, hostOp_run, setS_run,
      pure_run, allocObj, hroot, hro]
    rcases hm : alist_lookup s.mountpoints
        ((os_path_abspath path).drop ro.fs_source.length) with _ | ov
    · rw [hm] at htgt
      subst htgt
      simp only [hst, pure_run, bind_run, OverlayFS.getObj]
      exact ⟨_, rfl, alist_lookup_append_right _ _ _ hfresh⟩
    · have htgt2 : tgt = if ov ≠ [] then ov else os_path_abspath path := by
        rw [hm] at htgt
        exact htgt
      by_cases hov : ov ≠ []
      · rw [if_pos hov] at htgt2
        subst htgt2
        simp only [if_pos hov, hst, pure_run, bind_run, OverlayFS.getObj]
        exact ⟨_, rfl, alist_lookup_append_right _ _ _ hfresh⟩
      · rw [if_neg hov] at htgt2
        subst htgt2
        simp only [if_neg hov, hst, pure_run, bind_run, OverlayFS.getObj]
        exact ⟨_, rfl, alist_lookup_append_right _ _ _ hfresh⟩
  obtain ⟨s', hrun, hobj⟩ := hrun
  refine ⟨by rw [hrun], ?_, by rw [hrun], fun eref offset data => write_ignores_mountpoints h eref offset data⟩
  rw [hrun]
  simp [hobj]

/-- C6 counterexample: with export root `/r` and override `/m ↦ /p`
registered, the logical path `/r/m/x` falls strictly under the override
sub-path `/m`, yet the created entry caches the export-root path
`/r/m/x` — not the substituted `/p/x` the claim predicts. -/
theorem mountpoint_substitution_counterexample :
    alist_lookup s6.mountpoints (bs "/m") = some (bs "/p") ∧
    (os_path_abspath (bs "/r/m/x")).drop (bs "/r").length = bs "/m" ++ bs "/x" ∧
    run6.1 = .ok 1 ∧
    (run6.2.1.getObj 1).map (fun o => o.fs_source) = some (bs "/r/m/x") ∧
    bs "/r/m/x" ≠ bs "/p" ++ bs "/x" :=
  ⟨rfl, rfl, rfl, rfl, by decide⟩

/-- Witness for `create_fsentry_resolution`: the non-matching path
`/r/m/x` stays verbatim; the exactly-matching path `/r/m` is replaced by
the override's physical root `/p`. -/
theorem create_fsentry_resolution_witness :
    run6.1 = .ok 1 ∧
    (run6.2.1.getObj 1).map (fun o => o.fs_source) = some (bs "/r/m/x") ∧
    run6b.1 = .ok 1 ∧
    (run6b.2.1.getObj 1).map (fun o => o.fs_source) = some (bs "/p") := by
  have h1 := create_fsentry_resolution host6 s6 (bs "/r/m/x") 0 entX
    ⟨1, 50, S_IFREG, 0, 0, 0, 0, 0, 0, 0, 0⟩ (bs "/r/m/x") rfl rfl rfl (by rfl) (by rfl)
  have h2 := create_fsentry_resolution host6 s6 (bs "/r/m") 0 entX
    ⟨2, 60, S_IFDIR, 0, 0, 0, 0, 0, 0, 0, 0⟩ (bs "/p") rfl rfl rfl (by rfl) (by rfl)
  exact ⟨h1.1, h1.2.1, h2.1, h2.2.1⟩

/-! ### Association-list and state-evolution lemmas (towards C7) -/

@[simp]
theorem alist_lookup_nil {α β : Type} [DecidableEq α] (k : α) :
    alist_lookup ([] : List (α × β)) k = none := rfl

@[simp]
theorem alist_lookup_cons {α β : Type} [DecidableEq α] (k' : α) (v' : β)
    (rest : List (α × β)) (k : α) :
    alist_lookup ((k', v') :: rest) k
      = if k' = k then some v' else alist_lookup rest k := rfl

@[simp]
theorem alist_update_nil {α β : Type} [DecidableEq α] (k : α) (f : β → β) :
    alist_update ([] : List (α × β)) k f = [] := rfl

@[simp]
theorem alist_update_cons {α β : Type} [DecidableEq α] (k' : α) (v' : β)
    (rest : List (α × β)) (k : α) (f : β → β) :
    alist_update ((k', v') :: rest) k f
      = (if k' = k then (k', f v') else (k', v')) :: alist_update rest k f := by
  simp only [alist_update, List.map_cons]

@[simp]
theorem alist_insert_nil {α β : Type} [DecidableEq α] (k : α) (v : β) :
    alist_insert ([] : List (α × β)) k v = [(k, v)] := rfl

@[simp]
theorem alist_insert_cons {α β : Type} [DecidableEq α] (k' : α) (v' : β)
    (rest : List (α × β)) (k : α) (v : β) :
    alist_insert ((k', v') :: rest) k v
      = if k' = k then (k', v) :: rest else (k', v') :: alist_insert rest k v := rfl

theorem alist_lookup_mem {α β : Type} [DecidableEq α] {l : List (α × β)} {k : α} {v : β}
    (h : alist_lookup l k = some v) : (k, v) ∈ l := by
  induction l with
  | nil => simp at h
  | cons p rest ih =>
    rcases p with ⟨k', v'⟩
    rw [alist_lookup_cons] at h
    split at h
    · next hk =>
        injection h with h2
        subst hk
        subst h2
        exact List.mem_cons_self _ _
    · next => exact List.mem_cons_of_mem _ (ih h)

theorem alist_lookup_next_ref_none {s : OverlayFS} (h : heap_lt s) :
    alist_lookup s.heap s.next_ref = none := by
  rcases hl : alist_lookup s.heap s.next_ref with _ | v
  · rfl
  · exact absurd (h _ (alist_lookup_mem hl)) (by simp)

theorem alist_lookup_append_left {α β : Type} [DecidableEq α]
    {l : List (α × β)} {k : α} {v : β} (l2 : List (α × β))
    (h : alist_lookup l k = some v) : alist_lookup (l ++ l2) k = some v := by
  induction l with
  | nil => simp at h
  | cons p rest ih =>
    rcases p with ⟨k', v'⟩
    by_cases hk : k' = k
    · simp_all
    · simp only [alist_lookup_cons, if_neg hk, List.cons_append] at h ⊢
      exact ih h

theorem alist_update_lookup_eq {α β : Type} [DecidableEq α]
    (l : List (α × β)) (k : α) (f : β → β) :
    alist_lookup (alist_update l k f) k = (alist_lookup l k).map f := by
  induction l with
  | nil => simp
  | cons p rest ih =>
    rcases p with ⟨k', v'⟩
    by_cases hk : k' = k
    · subst hk
      simp
    · simp [hk, ih]

theorem alist_update_lookup_ne {α β : Type} [DecidableEq α]
    (l : List (α × β)) (k q : α) (f : β → β) (hq : q ≠ k) :
    alist_lookup (alist_update l k f) q = alist_lookup l q := by
  induction l with
  | nil => simp
  | cons p rest ih =>
    rcases p with ⟨k', v'⟩
    by_cases hk : k' = k
    · subst hk
      simp [Ne.symm hq, ih]
    · by_cases hq' : k' = q
      · subst hq'
        simp [hk, ih]
      · simp [hk, hq', ih]

theorem alist_update_fst {α β : Type} [DecidableEq α]
    {l : List (α × β)} {k : α} {f : β → β} {p : α × β}
    (h : p ∈ alist_update l k f) : ∃ q ∈ l, q.1 = p.1 := by
  rcases List.mem_map.1 h with ⟨q, hq, hqe⟩
  refine ⟨q, hq, ?_⟩
  by_cases hk : q.1 = k
  · rw [if_pos hk] at hqe
    rw [← hqe]
  · rw [if_neg hk] at hqe
    rw [← hqe]

theorem alist_insert_lookup_ne {α β : Type} [DecidableEq α]
    (l : List (α × β)) (k q : α) (v : β) (hq : q ≠ k) :
    alist_lookup (alist_insert l k v) q = alist_lookup l q := by
  induction l with
  | nil => simp [Ne.symm hq]
  | cons p rest ih =>
    rcases p with ⟨k', v'⟩
    by_cases hk : k' = k
    · subst hk
      simp [Ne.symm hq]
    · by_cases hq' : k' = q
      · subst hq'
        simp [hk]
      · simp [hk, hq', ih]

theorem create_fsentry_ok (h : Host) (p : Bytes) (par : Option Nat) (s : OverlayFS)
    (r : Nat) (s' : OverlayFS) (t : List HostCall)
    (hok : create_fsentry h p par s = (.ok r, s', t)) :
    r = s.next_ref ∧ s'.next_ref = s.next_ref + 1 ∧ s'.entries = s.entries ∧
    s'.root_dir = s.root_dir ∧ s'.fs_id = s.fs_id ∧
    ∃ obj, s'.heap = s.heap ++ [(s.next_ref, obj)] ∧
      obj.name = os_path_basename (os_path_abspath p) ∧
      obj.fs_childs = [] ∧ obj.fs_owner = s.fs_id := by
  simp only [create_fsentry, bind_run, getS_run, readObj_run, hostOp_run, setS_run,
    pure_run, allocObj] at hok
  rcases hroot : s.root_dir with _ | rref
  all_goals rw [hroot] at hok
  all_goals simp only [bind_run, pure_run, getS_run, readObj_run, hostOp_run,
    setS_run, allocObj] at hok
  case some =>
    rcases hrr : s.getObj rref with _ | ro
    · rw [hrr] at hok
      simp at hok
    · rw [hrr] at hok
      simp only [bind_run, pure_run] at hok
      rcases hm : alist_lookup s.mountpoints
          ((os_path_abspath p).drop ro.fs_source.length) with _ | ov
      all_goals rw [hm] at hok
      all_goals simp only [bind_run, pure_run] at hok
      case none =>
        rcases hpar : par with _ | pr
        all_goals rw [hpar] at hok
        all_goals simp only [bind_run, pure_run, readObj_run] at hok
        case none =>
          rcases hl : h.lstat (os_path_abspath p) with n | st
          · rw [hl] at hok
            simp at hok
          · rw [hl] at hok
            simp only [bind_run, pure_run, getS_run, setS_run, hostOp_run, allocObj,
              Prod.ext_iff, Except.ok.injEq] at hok
            obtain ⟨h1, h2, h3⟩ := hok
            subst h2
            refine ⟨h1.symm, rfl, rfl, hroot, rfl, ?_⟩
            exact ⟨_, rfl, rfl, rfl, rfl⟩
        case some =>
          rcases hpo : s.getObj pr with _ | po
          · rw [hpo] at hok
            simp at hok
          · rw [hpo] at hok
            simp only [bind_run, pure_run] at hok
            rcases hl : h.lstat (os_path_abspath p) with n | st
            · rw [hl] at hok
              simp at hok
            · rw [hl] at hok
              simp only [bind_run, pure_run, getS_run, setS_run, hostOp_run, allocObj,
                Prod.ext_iff, Except.ok.injEq] at hok
              obtain ⟨h1, h2, h3⟩ := hok
              subst h2
              refine ⟨h1.symm, rfl, rfl, hroot, rfl, ?_⟩
              exact ⟨_, rfl, rfl, rfl, rfl⟩
      case some =>
        rcases hpar : par with _ | pr
        all_goals rw [hpar] at hok
        all_goals simp only [bind_run, pure_run, readObj_run] at hok
        case none =>
          rcases hl : h.lstat (if ov ≠ [] then ov else os_path_abspath p) with n | st
          · rw [hl] at hok
            simp at hok
          · rw [hl] at hok
            simp only [bind_run, pure_run, getS_run, setS_run, hostOp_run, allocObj,
              Prod.ext_iff, Except.ok.injEq] at hok
            obtain ⟨h1, h2, h3⟩ := hok
            subst h2
            refine ⟨h1.symm, rfl, rfl, hroot, rfl, ?_⟩
            exact ⟨_, rfl, rfl, rfl, rfl⟩
        case some =>
          rcases hpo : s.getObj pr with _ | po
          · rw [hpo] at hok
            simp at hok
          · rw [hpo] at hok
            simp only [bind_run, pure_run] at hok
            rcases hl : h.lstat (if ov ≠ [] then ov else os_path_abspath p) with n | st
            · rw [hl] at hok
              simp at hok
            · rw [hl] at hok
              simp only [bind_run, pure_run, getS_run, setS_run, hostOp_run, allocObj,
                Prod.ext_iff, Except.ok.injEq] at hok
              obtain ⟨h1, h2, h3⟩ := hok
              subst h2
              refine ⟨h1.symm, rfl, rfl, hroot, rfl, ?_⟩
              exact ⟨_, rfl, rfl, rfl, rfl⟩
  case none =>
    rcases hpar : par with _ | pr
    all_goals rw [hpar] at hok
    all_goals simp only [bind_run, pure_run, readObj_run] at hok
    case none =>
      rcases hl : h.lstat (os_path_abspath p) with n | st
      · rw [hl] at hok
        simp at hok
      · rw [hl] at hok
        simp only [bind_run, pure_run, getS_run, setS_run, hostOp_run, allocObj,
          Prod.ext_iff, Except.ok.injEq] at hok
        obtain ⟨h1, h2, h3⟩ := hok
        subst h2
        refine ⟨h1.symm, rfl, rfl, hroot, rfl, ?_⟩
        exact ⟨_, rfl, rfl, rfl, rfl⟩
    case some =>
      rcases hpo : s.getObj pr with _ | po
      · rw [hpo] at hok
        simp at hok
      · rw [hpo] at hok
        simp only [bind_run, pure_run] at hok
        rcases hl : h.lstat (os_path_abspath p) with n | st
        · rw [hl] at hok
          simp at hok
        · rw [hl] at hok
          simp only [bind_run, pure_run, getS_run, setS_run, hostOp_run, allocObj,
            Prod.ext_iff, Except.ok.injEq] at hok
          obtain ⟨h1, h2, h3⟩ := hok
          subst h2
          refine ⟨h1.symm, rfl, rfl, hroot, rfl, ?_⟩
          exact ⟨_, rfl, rfl, rfl, rfl⟩

theorem track_entry_ok (cref : Nat) (s : OverlayFS) (o : FSEntry)
    (ho : s.getObj cref = some o) :
    track_entry cref s
      = (.ok (), { s with
          entries := if (alist_lookup s.entries o.fileid).isNone = true
            then s.entries ++ [(o.fileid, cref)] else s.entries,
          heap := alist_update s.heap cref
            (fun o2 => { o2 with fs_links := o2.fs_links + 1 }) }, []) := by
  simp only [track_entry, bind_run, readObj_run, getS_run, setS_run, writeObj,
    modifyS_run, pure_run, ho]
  by_cases hn : (alist_lookup s.entries o.fileid).isNone = true
  · simp [hn]
  · simp [hn]

theorem fill_loop_ok (h : Host) (dref : Nat) (od : FSEntry) (hchild : od.fs_childs = []) :
    ∀ (names : List Bytes) (acc : List (Bytes × Slot)) (s : OverlayFS)
      (l : List (Bytes × Slot)) (s' : OverlayFS) (t : List HostCall),
    fill_loop h dref names acc s = (.ok l, s', t) →
    s.getObj dref = some od →
    heap_lt s → dref < s.next_ref →
    (s'.getObj dref = some od ∧ heap_lt s' ∧ dref < s'.next_ref ∧
     s'.fs_id = s.fs_id ∧
     ∀ K, (K ∉ names.map
        (fun n => os_path_basename (os_path_abspath (os_path_join od.fs_source n)))) →
       alist_lookup l K = alist_lookup acc K) := by
  intro names
  induction names with
  | nil =>
    intro acc s l s' t hrun hdref hlt hnr
    simp only [fill_loop, pure_run, Prod.ext_iff, Except.ok.injEq] at hrun
    obtain ⟨h1, h2, h3⟩ := hrun
    subst h1
    subst h2
    exact ⟨hdref, hlt, hnr, rfl, fun K _ => rfl⟩
  | cons n rest ih =>
    intro acc s l s' t hrun hdref hlt hnr
    simp only [fill_loop, bind_run, readObj_run, pure_run] at hrun
    rw [show s.getObj dref = some od from hdref] at hrun
    simp only [bind_run, pure_run] at hrun
    rw [hchild] at hrun
    simp only [alist_lookup_nil] at hrun
    simp only [bind_run] at hrun
    rcases hc : create_fsentry h (os_path_join od.fs_source n) (some dref) s with ⟨rc, s1, t1⟩
    rw [hc] at hrun
    rcases rc with e | cref
    · simp at hrun
    · simp only [] at hrun
      obtain ⟨hr1, hr2, hr3, hr4, hr5, obj, hheap, hname, hchilds2, hown⟩ :=
        create_fsentry_ok h _ _ _ _ _ _ hc
      have hobj1 : s1.getObj cref = some obj := by
        rw [show s1.getObj cref = alist_lookup s1.heap cref from rfl, hr1, hheap]
        exact alist_lookup_append_right _ _ _ (alist_lookup_next_ref_none hlt)
      rw [track_entry_ok cref s1 obj hobj1] at hrun
      simp only [bind_run, slotName, readObj_run, pure_run] at hrun
      set s2 : OverlayFS := { s1 with
          entries := if (alist_lookup s1.entries obj.fileid).isNone = true
            then s1.entries ++ [(obj.fileid, cref)] else s1.entries,
          heap := alist_update s1.heap cref
            (fun o2 => { o2 with fs_links := o2.fs_links + 1 }) } with hs2
      have hobj2 : s2.getObj cref
          = some { obj with fs_links := obj.fs_links + 1 } := by
        rw [show s2.getObj cref = alist_lookup s2.heap cref from rfl, hs2]
        simp only [alist_update_lookup_eq]
        rw [show alist_lookup s1.heap cref = some obj from hobj1]
        rfl
      rw [hobj2] at hrun
      simp only [] at hrun
      rcases hrec : fill_loop h dref rest (alist_insert acc obj.name (.obj cref)) s2
        with ⟨rr, s3, t3⟩
      rw [hrec] at hrun
      rcases rr with e | lx
      · simp at hrun
      · simp only [Prod.ext_iff, Except.ok.injEq] at hrun
        obtain ⟨h1, h2, h3⟩ := hrun
        subst h1
        subst h2
        have hs2n : s2.next_ref = s1.next_ref := by rw [hs2]
        have hs2heap : s2.heap = alist_update s1.heap cref
            (fun o2 => { o2 with fs_links := o2.fs_links + 1 }) := by rw [hs2]
        have hs2fs : s2.fs_id = s1.fs_id := by rw [hs2]
        have hdref2 : s2.getObj dref = some od := by
          rw [show s2.getObj dref = alist_lookup s2.heap dref from rfl, hs2heap]
          rw [alist_update_lookup_ne _ _ _ _ (by rw [hr1]; omega)]
          rw [hheap]
          exact alist_lookup_append_left _ hdref
        have hlt2 : heap_lt s2 := by
          intro q hq
          rw [hs2heap] at hq
          obtain ⟨q2, hq2, hqe⟩ := alist_update_fst hq
          rw [hheap] at hq2
          rcases List.mem_append.1 hq2 with hq2 | hq2
          · have hlt1 := hlt _ hq2
            have hq1 : q2.1 = q.1 := hqe
            rw [hs2n]
            omega
          · simp only [List.mem_singleton] at hq2
            subst hq2
            have hq1 : q.1 = s.next_ref := hqe.symm
            rw [hs2n]
            omega
        have hnr2 : dref < s2.next_ref := by
          rw [hs2n]
          omega
        obtain ⟨c1, c2, c3, c4, c5⟩ := ih _ s2 _ _ _ hrec hdref2 hlt2 hnr2
        refine ⟨c1, c2, c3, by rw [c4, hs2fs, hr5], ?_⟩
        intro K hK
        simp only [List.map_cons, List.mem_cons, not_or] at hK
        rw [c5 K (by simpa using hK.2)]
        apply alist_insert_lookup_ne
        intro hEq
        exact hK.1 (by rw [← hname]; exact hEq)

theorem alist_lookup_some_nonempty {α β : Type} [DecidableEq α]
    {l : List (α × β)} {k : α} {v : β} (h : alist_lookup l k = some v) :
    l.length ≠ 0 := by
  cases l with
  | nil => simp at h
  | cons p rest => simp

/-! ### Synthetic dot entries (C7) -/

/-- C7: after `fill_fs_childs` populates a directory's empty children
cache (for a directory with a tracked real parent, whose listing carries no
name normalizing to `.` or `..`), `lookup(dir, ".")` returns the synthetic
`FSEntryLink` based at the directory itself and `lookup(dir, "..")` the one
based at the directory's real parent; each link reads every attribute
(identity `fileid` and all metadata) through its base object and overrides
only the exposed `name` — and the lookups perform no host I/O and leave the
state unchanged. -/
theorem lookup_dot_dotdot (h : Host) (s : OverlayFS) (dref : Nat) (od : FSEntry)
    (pid pref : Nat) (s' : OverlayFS) (t : List HostCall) (names : List Bytes)
    (hdref : s.getObj dref = some od)
    (hdir : od.type = FileType.DIR)
    (hempty : od.fs_childs = [])
    (hlt : heap_lt s) (hnr : dref < s.next_ref)
    (hown : od.fs_owner = s.fs_id)
    (hpid : od.parent_id = some pid) (hpid0 : pid ≠ 0)
    (hpref : alist_lookup s.entries pid = some pref)
    (hld : h.listdir od.fs_source = .ok names)
    (hclean : ∀ n ∈ names,
       os_path_basename (os_path_abspath (os_path_join od.fs_source n)) ≠ bs "." ∧
       os_path_basename (os_path_abspath (os_path_join od.fs_source n)) ≠ bs "..")
    (hfill : fill_fs_childs h dref s = (.ok (), s', t)) :
    lookup h dref (bs ".") s' = (.ok (some (.link (some dref) (bs "."))), s', []) ∧
    lookup h dref (bs "..") s' = (.ok (some (.link (some pref) (bs ".."))), s', []) ∧
    (∀ r nm, s'.slotViewP (.link (some r) nm)
       = (s'.getObj r).map (fun o => { o with name := nm })) ∧
    ∃ od2, s'.getObj dref = some od2 ∧ od2.fileid = od.fileid := by
  simp only [fill_fs_childs, bind_run, readObj_run, getS_run, pure_run, hostOp_run,
    mapErrM_run] at hfill
  rw [hdref] at hfill
  simp only [] at hfill
  rw [hdir] at hfill
  simp only [if_neg (by simp : ¬(FileType.DIR ≠ FileType.DIR))] at hfill
  rw [hpid] at hfill
  simp only [truthyId, bind_run, getS_run] at hfill
  rw [if_pos (show decide (pid ≠ 0) = true by simp [hpid0])] at hfill
  simp only [get_entry_by_id, bind_run, getS_run, pure_run] at hfill
  rw [hpref] at hfill
  simp only [mapErrM_run, bind_run, hostOp_run] at hfill
  rw [hld] at hfill
  simp only [] at hfill
  rcases hfl : fill_loop h dref names
      [(bs ".", Slot.link (some dref) (bs ".")), (bs "..", Slot.link (some pref) (bs ".."))] s
    with ⟨res, sl, tl⟩
  rw [hfl] at hfill
  rcases res with e | d
  · simp at hfill
  · simp only [] at hfill
    obtain ⟨c1, c2, c3, c4, c5⟩ :=
      fill_loop_ok h dref od hempty names _ s d sl tl hfl hdref hlt hnr
    simp only [readObj_run] at hfill
    rw [c1] at hfill
    simp only [] at hfill
    rw [hempty] at hfill
    simp only [evict_loop, pure_run, bind_run, writeObj, modifyS_run,
      Prod.ext_iff, Except.ok.injEq] at hfill
    obtain ⟨h1, h2⟩ := hfill
    obtain ⟨h2s, h2t⟩ := h2
    have hdot : alist_lookup d (bs ".") = some (.link (some dref) (bs ".")) := by
      rw [c5 (bs ".") (by
        simp only [List.mem_map, not_exists, not_and]
        intro n hn heq
        exact (hclean n hn).1 heq)]
      rw [alist_lookup_cons, if_pos rfl]
    have hdot2 : alist_lookup d (bs "..") = some (.link (some pref) (bs "..")) := by
      rw [c5 (bs "..") (by
        simp only [List.mem_map, not_exists, not_and]
        intro n hn heq
        exact (hclean n hn).2 heq)]
      rw [alist_lookup_cons, if_neg (by decide), alist_lookup_cons, if_pos rfl]
    have hheap' : s'.heap = alist_update sl.heap dref
        (fun o => { o with nlink := d.length, fs_childs := d }) := by rw [← h2s]
    have hfsid' : s'.fs_id = sl.fs_id := by rw [← h2s]
    have hobj' : s'.getObj dref = some { od with nlink := d.length, fs_childs := d } := by
      rw [show s'.getObj dref = alist_lookup s'.heap dref from rfl, hheap',
        alist_update_lookup_eq, show alist_lookup sl.heap dref = some od from c1]
      rfl
    have hownd : ({ od with nlink := d.length, fs_childs := d } : FSEntry).fs_owner
        = s'.fs_id := by
      rw [hfsid', c4]
      exact hown
    have hlen2 : ¬(({ od with nlink := d.length, fs_childs := d } : FSEntry).fs_childs.length = 0) := by
      exact alist_lookup_some_nonempty hdot
    have hdne : d ≠ [] := by
      intro he
      rw [he] at hdot
      simp at hdot
    have hown2 : od.fs_owner = s'.fs_id := hownd
    refine ⟨?_, ?_, fun r nm => rfl, ⟨_, hobj', rfl⟩⟩
    · simp only [lookup, get_child_by_name, _verify_owned, bind_run, readObj_run, getS_run,
        throwM_run, pure_run, hobj']
      simp [hobj', hown2, hdir, hdne, hdot]
    · simp only [lookup, get_child_by_name, _verify_owned, bind_run, readObj_run, getS_run,
        throwM_run, pure_run, hobj']
      simp [hobj', hown2, hdir, hdne, hdot2]

/-- Witness for `lookup_dot_dotdot`: the subdirectory `/r/d` of `s7` after
its cache is populated; `.` resolves to the directory (ref 1) and `..` to
its real parent, the root (ref 0). -/
theorem lookup_dot_dotdot_witness :
    lookup host7 1 (bs ".") (fill_fs_childs host7 1 s7).2.1
      = (.ok (some (.link (some 1) (bs "."))), (fill_fs_childs host7 1 s7).2.1, []) ∧
    lookup host7 1 (bs "..") (fill_fs_childs host7 1 s7).2.1
      = (.ok (some (.link (some 0) (bs ".."))), (fill_fs_childs host7 1 s7).2.1, []) := by
  have hmain := lookup_dot_dotdot host7 s7 1 dirD 1 0 (fill_fs_childs host7 1 s7).2.1
    (fill_fs_childs host7 1 s7).2.2 [bs "a"]
    rfl rfl rfl (by unfold heap_lt; decide) (by decide) rfl rfl (by decide) rfl rfl
    (by decide) (by rfl)
  exact ⟨hmain.1, hmain.2.1⟩

/-! ### C10: termination and yield of the descendant iteration -/

/-- Inclusive iteration is the exclusive one with the starting slot
appended (the generator yields `entry` last when `inclusive`). -/
theorem iter_incl (s : OverlayFS) (fuel : Nat) (sl : Slot) :
    iter_descendants s fuel sl true
      = (iter_descendants s fuel sl false).map (fun l => l ++ [sl]) := by
  cases fuel with
  | zero => rfl
  | succ fuel =>
    simp only [iter_descendants]
    rcases s.slotViewP sl with _ | o
    · rfl
    · by_cases hd : o.type = FileType.DIR
      · rcases ho : iter_children (fun c => iter_descendants s fuel c false)
            (o.fs_childs.map Prod.snd) with e | l <;>
          simp [hd, ho, Except.map, Except.bind, Bind.bind]
      · simp [hd, Except.map, Except.bind, Bind.bind]

/-- Within the fuel budget the inclusive iteration succeeds and yields a
permutation of the cached subtree occurrences. -/
theorem iter_ok_perm (s : OverlayFS) :
    ∀ (fuel : Nat) (sl : Slot), ok_depth s fuel sl = true →
      ∃ l, iter_descendants s fuel sl true = .ok l ∧
        l.Perm (subtree_slots s fuel sl) := by
  intro fuel
  induction fuel with
  | zero =>
    intro sl hok
    simp [ok_depth] at hok
  | succ fuel ih =>
    intro sl hok
    simp only [ok_depth] at hok
    rcases hv : s.slotViewP sl with _ | o
    · rw [hv] at hok
      simp at hok
    · rw [hv] at hok
      simp only [] at hok
      by_cases hd : o.type = FileType.DIR
      · rw [if_pos hd] at hok
        have hall : ∀ c ∈ o.fs_childs.map Prod.snd, ok_depth s fuel c = true := by
          intro c hc
          exact List.all_eq_true.1 hok c hc
        have hch : ∀ cs : List Slot, (∀ c ∈ cs, ok_depth s fuel c = true) →
            ∃ L, iter_children (fun c => iter_descendants s fuel c false) cs = .ok L ∧
              L.Perm (cs.flatMap (fun c => subtree_slots s fuel c)) := by
          intro cs
          induction cs with
          | nil => intro _; exact ⟨[], rfl, by simp⟩
          | cons c rest ihc =>
            intro hcs
            obtain ⟨lc, hlc, hpc⟩ := ih c (hcs c (by simp))
            rw [iter_incl] at hlc
            rcases hf : iter_descendants s fuel c false with e | lf
            · rw [hf] at hlc
              simp [Except.map] at hlc
            · rw [hf] at hlc
              simp only [Except.map] at hlc
              obtain ⟨L, hL, hpL⟩ := ihc (fun x hx => hcs x (by simp [hx]))
              refine ⟨lf ++ [c] ++ L, ?_, ?_⟩
              · simp only [iter_children, hf, hL, Except.bind, Bind.bind, bind]
              · have hlc2 : lf ++ [c] = lc := by
                  injection hlc with h2
                rw [List.flatMap_cons]
                rw [hlc2]
                exact hpc.append hpL
        obtain ⟨L, hL, hpL⟩ := hch _ hall
        refine ⟨L ++ [sl], ?_, ?_⟩
        · simp only [iter_descendants, hv, if_pos hd, hL, Except.bind, Bind.bind, bind]
          rfl
        · simp only [subtree_slots, hv, if_pos hd]
          exact (List.perm_append_singleton sl L).trans (hpL.cons sl)
      · rw [if_neg hd] at hok
        refine ⟨[sl], ?_, ?_⟩
        · simp [iter_descendants, hv, hd, Except.bind, Bind.bind, bind]
        · simp [subtree_slots, hv, hd]

/-- If every reachable slot resolves but the tree exceeds the fuel budget,
the iteration raises `ValueError` (the depth guard). -/
theorem iter_value_error (s : OverlayFS) :
    ∀ (fuel : Nat) (sl : Slot) (inclusive : Bool),
      closed_at s fuel sl = true → ok_depth s fuel sl = false →
        iter_descendants s fuel sl inclusive = .error .valueError := by
  intro fuel
  induction fuel with
  | zero => intro sl incl _ _; rfl
  | succ fuel ih =>
    intro sl incl hcl hok
    simp only [closed_at] at hcl
    simp only [ok_depth] at hok
    rcases hv : s.slotViewP sl with _ | o
    · rw [hv] at hcl; simp at hcl
    · rw [hv] at hcl hok
      simp only [] at hcl hok
      by_cases hd : o.type = FileType.DIR
      · rw [if_pos hd] at hcl hok
        have hch : ∀ cs : List Slot,
            (∀ c ∈ cs, closed_at s fuel c = true) →
            (cs.all (fun c => ok_depth s fuel c) = false) →
            iter_children (fun c => iter_descendants s fuel c false) cs
              = .error .valueError := by
          intro cs
          induction cs with
          | nil => intro _ hall; simp at hall
          | cons c rest ihc =>
            intro hcs hall
            rcases hoc : ok_depth s fuel c with _ | _
            · have he := ih c false (hcs c (by simp)) hoc
              simp [iter_children, he, Except.bind, Bind.bind, bind]
            · have hrest : rest.all (fun x => ok_depth s fuel x) = false := by
                rcases hr : rest.all (fun x => ok_depth s fuel x) with _ | _
                · rfl
                · rw [List.all_cons, hoc, hr] at hall
                  simp at hall
              obtain ⟨lc, hlc, _⟩ := iter_ok_perm s fuel c hoc
              rw [iter_incl] at hlc
              rcases hf : iter_descendants s fuel c false with e | lf
              · rw [hf] at hlc; simp [Except.map] at hlc
              · have he := ihc (fun x hx => hcs x (by simp [hx])) hrest
                simp [iter_children, hf, he, Except.bind, Bind.bind, bind]
        have hcl2 : ∀ c ∈ o.fs_childs.map Prod.snd, closed_at s fuel c = true :=
          fun c hc => List.all_eq_true.1 hcl c hc
        have he := hch _ hcl2 hok
        simp [iter_descendants, hv, hd, he, Except.bind, Bind.bind, bind]
      · rw [if_neg hd] at hok
        simp at hok

/-- In the cyclic fixture every reachable slot resolves at any depth. -/
theorem sC_closed : ∀ fuel, closed_at sC fuel (.obj 0) = true := by
  intro fuel
  induction fuel with
  | zero => rfl
  | succ fuel ih =>
    simp only [closed_at]
    rw [show sC.slotViewP (.obj 0) = some entC from rfl]
    simp only []
    rw [if_pos (show entC.type = FileType.DIR from rfl)]
    simp [entC, ih]

/-- The cyclic fixture exceeds every fuel budget. -/
theorem sC_not_ok : ∀ fuel, ok_depth sC fuel (.obj 0) = false := by
  intro fuel
  induction fuel with
  | zero => rfl
  | succ fuel ih =>
    simp only [ok_depth]
    rw [show sC.slotViewP (.obj 0) = some entC from rfl]
    simp only []
    rw [if_pos (show entC.type = FileType.DIR from rfl)]
    simp [entC, ih]

/-- C10: For every state and slot, if the cached children tree under the
slot is nested within the 1000-frame budget (`ok_depth` at fuel 1001),
the inclusive descendant iteration that `rm` performs terminates with a
list that is a permutation of the cached subtree occurrences — each
cached descendant exactly once, plus the slot itself; if every reachable
slot resolves but the tree exceeds the budget (e.g. a cycle among cached
directory entries), the iteration raises `ValueError` instead of
recursing unboundedly. -/
theorem iter_descendants_termination (s : OverlayFS) (sl : Slot) :
    (ok_depth s 1001 sl = true →
      ∃ l, iter_descendants s 1001 sl true = .ok l ∧
        l.Perm (subtree_slots s 1001 sl)) ∧
    (closed_at s 1001 sl = true → ok_depth s 1001 sl = false →
      iter_descendants s 1001 sl true = .error .valueError) :=
  ⟨iter_ok_perm s 1001 sl, iter_value_error s 1001 sl true⟩

/-- Witness for `iter_descendants_termination`: the shallow one-child
directory `s9` iterates successfully; the self-cycle `sC` raises
`ValueError`. -/
theorem iter_descendants_termination_witness :
    (∃ l, iter_descendants s9 1001 (.obj 0) true = .ok l ∧
       l.Perm (subtree_slots s9 1001 (.obj 0))) ∧
    iter_descendants sC 1001 (.obj 0) true = .error .valueError :=
  ⟨(iter_descendants_termination s9 (.obj 0)).1 (by decide),
   (iter_descendants_termination sC (.obj 0)).2 (sC_closed 1001) (sC_not_ok 1001)⟩

end LkvmNfs
